import Mathlib

/-!
Shallow embedding of the provenance/process engine of `aiida/work/process.py`
and `aiida/workflows2/process_registry.py`: nodes, typed links, the storage
collaborator, the process lifecycle hooks, input linking, output emission,
checkpointing and the process registry, together with theorems settling the
specification's claims against these definitions.
-/

/-- Kind of a persisted graph vertex: a data node or a calculation (process)
node; `Process.get_or_create_db_record` always allocates a calculation node. -/
inductive NodeKind
  | data
  | calculation
deriving DecidableEq

/-- Modelled from the spec: the link-type taxonomy.  The constructors `create`,
`ret`, `input` and `call` are the members the source call sites use
(`LinkType.CREATE`, `LinkType.RETURN`, the default input link of
`calc.add_link_from(input, name)`, and `LinkType.CALL`); the kind-split members
`callCalc`, `callWork`, `inputCalc`, `inputWork` are the taxonomy the spec
describes (the definition of `aiida.common.links.LinkType` itself is not under
src/). -/
inductive LinkType
  | create
  | ret
  | input
  | call
  | callCalc
  | callWork
  | inputCalc
  | inputWork
deriving DecidableEq

/-- Attribute values and raw (non-database) input payloads. -/
inductive AVal
  | boolV (b : Bool)
  | strV (s : String)
  | natV (n : Nat)
deriving DecidableEq

/-- A persisted graph vertex: internal id, kind, UUID (assigned at creation),
numeric primary key (assigned at store time), stored and sealed flags, and the
attribute dictionary. -/
structure Node where
  nid : Nat
  kind : NodeKind
  uuid : Nat
  pk : Option Nat
  is_stored : Bool
  is_sealed : Bool
  attrs : List (String × AVal)
deriving DecidableEq

/-- A directed, typed, labelled edge between two nodes. -/
structure Link where
  source : Nat
  target : Nat
  ltype : LinkType
  label : String
deriving DecidableEq

/-- The backing node/link store shared by all processes; `nextId` feeds fresh
node ids and UUIDs, `nextPk` fresh primary keys. -/
structure Store where
  nodes : List Node
  links : List Link
  nextId : Nat
  nextPk : Nat
deriving DecidableEq

/-- Errors surfaced by the engine and by the storage collaborator. -/
inductive PErr
  | modificationNotAllowed
  | valueError
  | typeError
  | indexError
  | notExistent
  | assertionError
deriving DecidableEq

/-- A process id is either the node's numeric primary key (when stored) or its
UUID (`Process._create_and_setup_db_record`, lines 388-391). -/
inductive Pid
  | pk (n : Nat)
  | uuidPid (u : Nat)
deriving DecidableEq

def Store.getNode (s : Store) (nid : Nat) : Option Node :=
  s.nodes.find? (fun n => n.nid == nid)

def Store.updateNode (s : Store) (nid : Nat) (f : Node → Node) : Store :=
  ⟨s.nodes.map (fun n => if n.nid == nid then f n else n), s.links, s.nextId, s.nextPk⟩

/-- Modelled from the spec: the storage collaborator's `createNode(kind)`.  A
fresh node gets the next id as internal id and UUID, no primary key, and is
neither stored nor sealed. -/
def Store.createNode (s : Store) (k : NodeKind) : Store × Nat :=
  (⟨s.nodes ++ [⟨s.nextId, k, s.nextId, none, false, false, []⟩],
    s.links, s.nextId + 1, s.nextPk⟩, s.nextId)

/-- Incoming links of a node with the given type. -/
def Store.incomingOf (s : Store) (nid : Nat) (lt : LinkType) : List Link :=
  s.links.filter (fun l => l.target == nid && decide (l.ltype = lt))

/-- Modelled from the spec: `addLink(source, target, type, label)`.  It fails
with `ModificationNotAllowed` on a sealed target, and with the integrity error
(surfaced as `ValueError`, the exception `Process.on_output_emitted` catches)
on a second incoming CREATE or CALL edge or on a duplicate
(source, target, label) pair within the same type. -/
def Store.addLink (s : Store) (src tgt : Nat) (lt : LinkType) (lbl : String) :
    Except PErr Store :=
  match s.getNode tgt with
  | none => .error .notExistent
  | some n =>
    if n.is_sealed then .error .modificationNotAllowed
    else if (decide (lt = .create) || decide (lt = .call)) &&
        !(s.incomingOf tgt lt).isEmpty then .error .valueError
    else if s.links.any (fun l =>
        l.source == src && l.target == tgt && decide (l.ltype = lt) &&
        l.label == lbl) then .error .valueError
    else .ok ⟨s.nodes, s.links ++ [⟨src, tgt, lt, lbl⟩], s.nextId, s.nextPk⟩

/-- Modelled from the spec: `setAttribute` fails with `ModificationNotAllowed`
when the node is sealed (`Sealable._set_attr` is not under src/). -/
def Store.setAttr (s : Store) (nid : Nat) (k : String) (v : AVal) :
    Except PErr Store :=
  match s.getNode nid with
  | none => .error .notExistent
  | some n =>
    if n.is_sealed then .error .modificationNotAllowed
    else .ok (s.updateNode nid (fun m =>
      { m with attrs := (m.attrs.filter (fun kv => kv.1 != k)) ++ [(k, v)] }))

/-- Modelled from the spec and usage: `Node.store` assigns the primary key and
marks the node stored; on an already stored node it is a no-op (the source
stores emitted values and inputs unconditionally). -/
def Store.storeNode (s : Store) (nid : Nat) : Store :=
  match s.getNode nid with
  | none => s
  | some n =>
    if n.is_stored then s
    else
      { s.updateNode nid (fun m => { m with pk := some s.nextPk, is_stored := true })
        with nextPk := s.nextPk + 1 }

/-- Modelled from usage in `Process._create_and_setup_db_record`: `store_all`
raises `ModificationNotAllowed` when the node was already stored (the caller
catches exactly that), otherwise stores the node. -/
def Store.store_all (s : Store) (nid : Nat) : Except PErr Store :=
  match s.getNode nid with
  | none => .error .notExistent
  | some n =>
    if n.is_stored then .error .modificationNotAllowed
    else .ok (s.storeNode nid)

/-- Modelled from the spec: `seal` marks the node permanently immutable.  It is
modelled idempotent because the source's failure path seals in both `on_fail`
and `on_stop`. -/
def Store.sealNode (s : Store) (nid : Nat) : Store :=
  s.updateNode nid (fun m => { m with is_sealed := true })

/-- Modelled from the spec: `loadNode(id)` resolves a pid (pk or UUID) to a
stored node, failing with `NotExistent` when absent. -/
def Store.load_node (s : Store) (pid : Pid) : Except PErr Nat :=
  match pid with
  | .pk k =>
    match s.nodes.find? (fun n => n.pk == some k) with
    | some n => .ok n.nid
    | none => .error .notExistent
  | .uuidPid u =>
    match s.nodes.find? (fun n => n.uuid == u && n.is_stored) with
    | some n => .ok n.nid
    | none => .error .notExistent

/-- An input value supplied to a process: a node reference, an input-group
mapping of names to nodes, or a raw non-database payload (such as the
`_store_provenance` flag). -/
inductive InVal
  | nodeV (nid : Nat)
  | groupV (entries : List (String × Nat))
  | rawV (v : AVal)
deriving DecidableEq

/-- A declared input port: the `non_db` flag (excluded from provenance) and
whether it is an input-group port. -/
structure PortInfo where
  non_db : Bool
  isGroup : Bool
deriving DecidableEq

/-- A process spec: the declared input ports and whether dynamic (arbitrarily
named) inputs are accepted. -/
structure PSpec where
  ports : List (String × PortInfo)
  dynamicInput : Bool
deriving DecidableEq

def lookupStr {α : Type} (l : List (String × α)) (k : String) : Option α :=
  (l.find? (fun kv => kv.1 == k)).map (fun kv => kv.2)

/-- `spec().get_input(name)`: look a declared port up by name. -/
def PSpec.get_input (sp : PSpec) (name : String) : Option PortInfo :=
  lookupStr sp.ports name

/-- Translated from `Process.define`: the base spec declares the non-db inputs
`_store_provenance`, `_description` and `_label`, and enables dynamic input. -/
def Process.baseSpec : PSpec :=
  ⟨[("_store_provenance", ⟨true, false⟩),
    ("_description", ⟨true, false⟩),
    ("_label", ⟨true, false⟩)], true⟩

/-- A transient process instance: the wrapped calculation node, the parent pid
resolved from the Process Stack at creation, the validated inputs, the spec and
the class name (saved as the process label). -/
structure Process where
  calcId : Nat
  parentPid : Option Pid
  inputs : List (String × InVal)
  spec : PSpec
  className : String
deriving DecidableEq

/-- The `_store_provenance` input read from `self.inputs`; its declared default
is `True` (`Process.define`). -/
def Process.store_provenance (p : Process) : Bool :=
  match lookupStr p.inputs "_store_provenance" with
  | some (.rawV (.boolV b)) => b
  | _ => true

/-- Translated from `Process.get_parent_calc`: resolve the parent pid to its
calculation node.  The source first asks the live-process monitor and then
`load_node(pk=...)`; both are modelled as a pid lookup in the store (the plum
monitor is outside src/).  Returns none when unresolvable. -/
def get_parent_calc (s : Store) (parentPid : Option Pid) : Option Nat :=
  match parentPid with
  | none => none
  | some pid =>
    match s.load_node pid with
    | .ok nid => some nid
    | .error _ => none

/-- Modelled from the spec: `get_or_create_output_group` (in `aiida.work.utils`,
not under src/) turns a `Calculation` input into a data node grouping that
calculation's outputs, modelled as creating a fresh unstored data node. -/
def get_or_create_output_group (s : Store) (_calcNid : Nat) : Store × Nat :=
  s.createNode .data

/-- Translated from `Process._setup_db_record` lines 405-423: collect the
`to_link` mapping.  Unknown names require dynamic-input support (the source
asserts it), `non_db` ports are skipped, and input-group ports expand into
flattened `{group}_{key}` labels. -/
def buildToLink (sp : PSpec) : List (String × InVal) →
    Except PErr (List (String × InVal))
  | [] => .ok []
  | (name, inp) :: rest =>
    match buildToLink sp rest with
    | .error e => .error e
    | .ok tl =>
      match sp.get_input name with
      | none => if sp.dynamicInput then .ok ((name, inp) :: tl) else .error .assertionError
      | some port =>
        if port.non_db then .ok tl
        else if port.isGroup then
          match inp with
          | .groupV entries =>
            .ok ((entries.map (fun kv => (name ++ "_" ++ kv.1, InVal.nodeV kv.2))) ++ tl)
          | _ => .error .typeError
        else .ok ((name, inp) :: tl)

/-- Translated from `Process._setup_db_record` lines 430-438, the tail of one
`to_link` iteration after the `Calculation` → output-group resolution: if the
input node `t` is unstored, add a CREATE link from the parent (when one
exists) and store the input when provenance is on; finally add the INPUT link
to the process node. -/
def linkResolved (parent : Option Nat) (storeProv : Bool) (calcId : Nat)
    (s : Store) (name : String) (t : Nat) : Except PErr Store :=
  match s.getNode t with
  | none => .error .notExistent
  | some n =>
    let afterStore : Except PErr Store :=
      if n.is_stored then .ok s
      else
        match parent with
        | some pc =>
          match s.addLink pc t .create "CREATE" with
          | .error e => .error e
          | .ok s2 => .ok (if storeProv then s2.storeNode t else s2)
        | none => .ok (if storeProv then s.storeNode t else s)
    match afterStore with
    | .error e => .error e
    | .ok s3 => s3.addLink t calcId .input name

/-- Translated from `Process._setup_db_record` lines 425-438, one iteration of
the `to_link` loop: resolve a `Calculation` input to its output group, then
run the CREATE/store/INPUT tail (`linkResolved`) on the resolved node. -/
def linkOne (parent : Option Nat) (storeProv : Bool) (calcId : Nat)
    (s : Store) (name : String) (inp : InVal) : Except PErr Store :=
  match inp with
  | .nodeV nid0 =>
    match s.getNode nid0 with
    | none => .error .notExistent
    | some n0 =>
      if n0.kind = .calculation then
        let sn := get_or_create_output_group s nid0
        linkResolved parent storeProv calcId sn.1 name sn.2
      else linkResolved parent storeProv calcId s name nid0
  | _ => .error .typeError

/-- The `to_link` loop of `Process._setup_db_record`, folding `linkOne` over
the collected entries. -/
def linkInputs (parent : Option Nat) (storeProv : Bool) (calcId : Nat) :
    Store → List (String × InVal) → Except PErr Store
  | s, [] => .ok s
  | s, (name, inp) :: rest =>
    match linkOne parent storeProv calcId s name inp with
    | .error e => .error e
    | .ok s1 => linkInputs parent storeProv calcId s1 rest

def PROCESS_LABEL_ATTR : String := "_process_label"
def FINISHED_KEY : String := "_finished"
def FAILED_KEY : String := "_failed"

/-- Translated from `Process._setup_db_record` lines 444-448: copy one optional
raw metadata input (`_description` or `_label`) onto the node as a plain
attribute; absent or non-raw values leave the store unchanged. -/
def setMetaAttr (s : Store) (calcId : Nat) (inputs : List (String × InVal))
    (inputKey attrKey : String) : Except PErr Store :=
  match lookupStr inputs inputKey with
  | some (.rawV v) => s.setAttr calcId attrKey v
  | _ => .ok s

/-- Translated from `Process._setup_db_record` lines 444-448: copy the
`_description` and `_label` raw inputs onto the node as plain attributes. -/
def applyMetaInputs (s : Store) (calcId : Nat)
    (inputs : List (String × InVal)) : Except PErr Store :=
  match setMetaAttr s calcId inputs "_description" "description" with
  | .error e => .error e
  | .ok s1 => setMetaAttr s1 calcId inputs "_label" "label"

/-- Translated from `Process._setup_db_record` (lines 393-448): assert the node
is not sealed, save the process label, resolve the parent from the stack pid,
link all inputs, add the CALL link from the parent, and copy description/label
metadata. -/
def setup_db_record (s : Store) (p : Process) : Except PErr Store :=
  match s.getNode p.calcId with
  | none => .error .notExistent
  | some calcNode =>
    if calcNode.is_sealed then .error .assertionError
    else
      match s.setAttr p.calcId PROCESS_LABEL_ATTR (.strV p.className) with
      | .error e => .error e
      | .ok s1 =>
        let parent := get_parent_calc s1 p.parentPid
        match buildToLink p.spec p.inputs with
        | .error e => .error e
        | .ok toLink =>
          match linkInputs parent p.store_provenance p.calcId s1 toLink with
          | .error e => .error e
          | .ok s2 =>
            let afterCall : Except PErr Store :=
              match parent with
              | some pc => s2.addLink pc p.calcId .call "CALL"
              | none => .ok s2
            match afterCall with
            | .error e => .error e
            | .ok s3 => applyMetaInputs s3 p.calcId p.inputs

/-- Translated from `Process._create_and_setup_db_record` (lines 378-391):
create the `WorkCalculation` node (`get_or_create_db_record`), set up the db
record, `store_all` when provenance is on while swallowing the
`ModificationNotAllowed` of an already stored node, and return the numeric pk
as pid when assigned, the UUID otherwise. -/
def create_and_setup_db_record (s : Store) (parentPid : Option Pid)
    (inputs : List (String × InVal)) (sp : PSpec) (clsName : String) :
    Except PErr (Store × Nat × Pid) :=
  let sc := s.createNode .calculation
  let p : Process := ⟨sc.2, parentPid, inputs, sp, clsName⟩
  match setup_db_record sc.1 p with
  | .error e => .error e
  | .ok s1 =>
    let afterStore : Except PErr Store :=
      if p.store_provenance then
        match s1.store_all p.calcId with
        | .error .modificationNotAllowed => .ok s1
        | .error e => .error e
        | .ok s2 => .ok s2
      else .ok s1
    match afterStore with
    | .error e => .error e
    | .ok s2 =>
      match s2.getNode p.calcId with
      | none => .error .notExistent
      | some n =>
        match n.pk with
        | some k => .ok (s2, p.calcId, .pk k)
        | none => .ok (s2, p.calcId, .uuidPid n.uuid)

/-- Translated from `Process.on_finish`: mark the node's finished-ok attribute
(`WorkCalculation.FINISHED_KEY`) true. -/
def Process.on_finish (s : Store) (calcId : Nat) : Except PErr Store :=
  s.setAttr calcId FINISHED_KEY (.boolV true)

/-- Translated from `Process.on_stop`: seal the node. -/
def Process.on_stop (s : Store) (calcId : Nat) : Store :=
  s.sealNode calcId

/-- Translated from `Process.on_fail`: record the exception message under
`WorkCalculation.FAILED_KEY` and seal the node. -/
def Process.on_fail (s : Store) (calcId : Nat) (msg : String) : Except PErr Store :=
  match s.setAttr calcId FAILED_KEY (.strV msg) with
  | .error e => .error e
  | .ok s1 => .ok (s1.sealNode calcId)

/-- Modelled from the spec: the plum state machine drives the terminal phase,
FINISHED or FAILED according to the body outcome and then STOPPED, invoking the
source's `on_finish`/`on_fail` and `on_stop` hooks. -/
def Process.terminate (s : Store) (calcId : Nat) :
    Except String Unit → Except PErr Store
  | .ok _ =>
    match Process.on_finish s calcId with
    | .error e => .error e
    | .ok s1 => .ok (Process.on_stop s1 calcId)
  | .error msg =>
    match Process.on_fail s calcId msg with
    | .error e => .error e
    | .ok s1 => .ok (Process.on_stop s1 calcId)

/-- A value emitted on an output port: either an AiiDA `Data` node or anything
that is not an instance of `Data` (the `isinstance(value, Data)` check of
`Process.on_output_emitted`). -/
inductive PValue
  | dataVal (nid : Nat)
  | nonDataVal
deriving DecidableEq

/-- Translated from `Process.on_output_emitted` (lines 303-328): values that
are not `Data` instances raise `TypeError`; then the process tries to claim a
CREATE link, silently ignoring the `ValueError` raised when a creator already
exists; then the value is stored and a RETURN link is added.  (The plum super
call only records the in-memory output mapping and is outside src/.) -/
def Process.on_output_emitted (s : Store) (calcId : Nat) (value : PValue)
    (output_port : String) : Except PErr Store :=
  match value with
  | .nonDataVal => .error .typeError
  | .dataVal nid =>
    let afterCreate : Except PErr Store :=
      match s.addLink calcId nid .create output_port with
      | .error .valueError => .ok s
      | .error e => .error e
      | .ok s1 => .ok s1
    match afterCreate with
    | .error e => .error e
    | .ok s1 =>
      let s2 := s1.storeNode nid
      s2.addLink calcId nid .ret output_port

/-- The store an emission leaves behind: the new store on success, the original
store when the emission raised (a raised emission performs no node mutation). -/
def applyEmit (s : Store) (calcId : Nat) (value : PValue)
    (output_port : String) : Store :=
  match Process.on_output_emitted s calcId value output_port with
  | .ok s1 => s1
  | .error _ => s

/-- Translated from `Process.do_run` (lines 332-345): only the database-relevant
inputs are passed to the execution body; inputs whose declared port is
`non_db` are filtered out, unknown (dynamic) names are kept. -/
def Process.db_inputs (p : Process) : List (String × InVal) :=
  p.inputs.filter (fun kv =>
    match p.spec.get_input kv.1 with
    | none => true
    | some port => !port.non_db)

/-- Modelled from the spec: a deterministic execution body computes the terminal
output mapping purely from the database-relevant inputs. -/
def runBody (body : List (String × InVal) → List (String × Nat))
    (p : Process) : List (String × Nat) :=
  body p.db_inputs

/-- The saved instance state bundle: the calc id (`SaveKeys.CALC_ID`, holding
the process pid), the parent pid (`SaveKeys.PARENT_PID`), the `COPY` flag set
by `Process.retry`, and (Modelled from the spec) the engine-private plum state,
here the validated inputs. -/
structure Bundle where
  calc_id : Option Pid
  parent_calc_pid : Option Pid
  copy : Bool
  inputs : List (String × InVal)
deriving DecidableEq

/-- Translated from `Process.save_instance_state` (lines 219-227): assert the
node is stored when provenance is on, then record the parent pid and the calc
id (the process pid) into the bundle. -/
def Process.save_instance_state (s : Store) (p : Process) (pid : Pid) :
    Except PErr Bundle :=
  match s.getNode p.calcId with
  | none => .error .notExistent
  | some n =>
    if p.store_provenance && !n.is_stored then .error .assertionError
    else .ok ⟨some pid, p.parentPid, false, p.inputs⟩

/-- Modelled from the spec: `Node.copy` (not under src/) clones the node as a
new unstored, unsealed node with the same attributes and with equivalent
incoming INPUT links re-established on the copy. -/
def copyNode (s : Store) (oldNid : Nat) : Store × Nat :=
  match s.getNode oldNid with
  | none => (s, oldNid)
  | some n =>
    let newNid := s.nextId
    let newNode : Node := ⟨newNid, n.kind, newNid, none, false, false, n.attrs⟩
    let copiedLinks :=
      (s.links.filter (fun l => l.target == oldNid && decide (l.ltype = .input))).map
        (fun l => ⟨l.source, newNid, l.ltype, l.label⟩)
    (⟨s.nodes ++ [newNode], s.links ++ copiedLinks, s.nextId + 1, s.nextPk⟩, newNid)

/-- Translated from `Process.load_instance_state` (lines 246-268): when the
bundle carries a calc id, either load that node, or — when the `COPY` flag is
set — copy it and store the fresh copy; the pid becomes the node's pk.  Without
a calc id a fresh db record is created.  The parent pid is restored from the
bundle. -/
def Process.load_instance_state (s : Store) (b : Bundle) (sp : PSpec)
    (clsName : String) : Except PErr (Store × Process × Pid) :=
  match b.calc_id with
  | some cid =>
    match s.load_node cid with
    | .error e => .error e
    | .ok oldNid =>
      let scn : Store × Nat :=
        if b.copy then
          let sc := copyNode s oldNid
          (sc.1.storeNode sc.2, sc.2)
        else (s, oldNid)
      match scn.1.getNode scn.2 with
      | none => .error .notExistent
      | some n =>
        match n.pk with
        | none => .error .notExistent
        | some k =>
          .ok (scn.1, ⟨scn.2, b.parent_calc_pid, b.inputs, sp, clsName⟩, .pk k)
  | none =>
    match create_and_setup_db_record s b.parent_calc_pid b.inputs sp clsName with
    | .error e => .error e
    | .ok (s1, cid, pid) =>
      .ok (s1, ⟨cid, b.parent_calc_pid, b.inputs, sp, clsName⟩, pid)

/-- Translated from `Process.retry` (lines 195-198): set the `COPY` flag on the
bundle and restart from it (restart re-enters `load_instance_state`). -/
def Process.retry (s : Store) (b : Bundle) (sp : PSpec) (clsName : String) :
    Except PErr (Store × Process × Pid) :=
  Process.load_instance_state s { b with copy := true } sp clsName

/-- Modelled from the spec: `get_outputs_dict` reads the output mapping off the
node's stored outgoing CREATE/RETURN links (label ↦ target node). -/
def get_outputs_dict (s : Store) (nid : Nat) : List (String × Nat) :=
  (s.links.filter (fun l =>
    l.source == nid && (decide (l.ltype = .create) || decide (l.ltype = .ret)))).map
    (fun l => (l.label, l.target))

/-- The in-memory process registry: the bounded record of finished pids mapped
to their last output mapping (`ProcessRegistry._finished`). -/
structure Registry where
  finished : List (Pid × List (String × Nat))
deriving DecidableEq

def lookupPid {α : Type} (l : List (Pid × α)) (k : Pid) : Option α :=
  (l.find? (fun kv => decide (kv.1 = k))).map (fun kv => kv.2)

/-- Translated from `ProcessRegistry.get_outputs` (lines 62-73): return the
in-memory finished cache entry when present; otherwise the source loads the
node and computes `get_outputs_dict()` but discards the result (no `return`),
so control falls through to `raise ValueError` even when the node exists. -/
def ProcessRegistry.get_outputs (r : Registry) (s : Store) (pid : Pid) :
    Except PErr (List (String × Nat)) :=
  match lookupPid r.finished pid with
  | some outs => .ok outs
  | none =>
    match s.load_node pid with
    | .ok nid =>
      let _discarded := get_outputs_dict s nid
      .error .valueError
    | .error _ => .error .valueError

/-- A built function-process port: the input name together with the default the
builder chose for it (none means required). -/
structure BuiltSpec where
  ports : List (String × Option AVal)
  dynamicInput : Bool
deriving DecidableEq

/-- Translated from `FunctionProcess.build._define` (lines 483-487): the
default chosen for the positional argument at index `i`.  The guard is
`len(defaults) - len(args) + i >= 0` (with an empty/None `defaults` falsy), and
the value taken is `defaults[i]`, which raises `IndexError` when `i` is out of
range of `defaults`. -/
def buildDefault (numArgs : Nat) (defaults : List AVal) (i : Nat) :
    Except PErr (Option AVal) :=
  if defaults.length == 0 then .ok none
  else if (defaults.length : Int) - (numArgs : Int) + (i : Int) ≥ 0 then
    match defaults.get? i with
    | some d => .ok (some d)
    | none => .error .indexError
  else .ok none

/-- The per-argument port construction loop of `FunctionProcess.build._define`,
pairing each positional argument with its computed default. -/
def buildPortsAux (numArgs : Nat) (defaults : List AVal) :
    List (Nat × String) → Except PErr (List (String × Option AVal))
  | [] => .ok []
  | (i, a) :: rest =>
    match buildDefault numArgs defaults i with
    | .error e => .error e
    | .ok d =>
      match buildPortsAux numArgs defaults rest with
      | .error e => .error e
      | .ok tl => .ok ((a, d) :: tl)

/-- Translated from `FunctionProcess.build` (lines 462-507): every positional
function argument becomes an input port with the computed default, the extra
keyword arguments passed to `build` become additional ports (after popping the
positional names), and dynamic inputs are enabled exactly when the function
accepts arbitrary keyword arguments (`keywords is not None`). -/
def FunctionProcess.build (args : List String) (defaults : List AVal)
    (keywords : Bool) (kwargs : List String) : Except PErr BuiltSpec :=
  match buildPortsAux args.length defaults args.enum with
  | .error e => .error e
  | .ok argPorts =>
    let extra := (kwargs.filter (fun k => !args.contains k)).map
      (fun k => (k, (none : Option AVal)))
    .ok ⟨argPorts ++ extra, keywords⟩

/-- Modelled from the spec: plum's input validation rejects an input name that
is neither a declared port nor covered by dynamic inputs with `ValueError`
(the spec's `UnexpectedInputError`); a `BuiltSpec` with dynamic inputs
disabled therefore fails on unknown names. -/
def validateInputName (bs : BuiltSpec) (name : String) : Except PErr Unit :=
  if bs.ports.any (fun kv => kv.1 == name) then .ok ()
  else if bs.dynamicInput then .ok ()
  else .error .valueError

/-! ### Observations on stores -/

/-- The incoming CREATE links of a node. -/
def Store.createLinksTo (s : Store) (nid : Nat) : List Link :=
  s.incomingOf nid .create

/-- The incoming CALL links of a node. -/
def Store.callLinksTo (s : Store) (nid : Nat) : List Link :=
  s.incomingOf nid .call

/-- The incoming INPUT links of a node. -/
def Store.inputLinksTo (s : Store) (nid : Nat) : List Link :=
  s.incomingOf nid .input

/-- Whether the store's node is sealed. -/
def Store.isSealed (s : Store) (nid : Nat) : Bool :=
  match s.getNode nid with
  | some n => n.is_sealed
  | none => false

/-- Whether the store's node is stored. -/
def Store.isStored (s : Store) (nid : Nat) : Bool :=
  match s.getNode nid with
  | some n => n.is_stored
  | none => false

/-! ### Basic facts about the store operations -/

theorem Store.getNode_nid {s : Store} {y : Nat} {n : Node}
    (h : s.getNode y = some n) : n.nid = y := by
  have := List.find?_some h
  simpa using this

theorem Store.getNode_updateNode (s : Store) (x y : Nat) (f : Node → Node)
    (hf : ∀ n, (f n).nid = n.nid) :
    (s.updateNode x f).getNode y =
      (s.getNode y).map (fun n => if n.nid == x then f n else n) := by
  unfold Store.updateNode Store.getNode
  rw [List.find?_map]
  have hp : ((fun n => n.nid == y) ∘ fun n => if (n.nid == x) = true then f n else n)
      = (fun n : Node => n.nid == y) := by
    funext n
    by_cases hx : (n.nid == x) = true <;> simp [Function.comp, hx, hf]
  rw [hp]

theorem Store.getNode_updateNode_self {s : Store} {x : Nat} {n : Node}
    (f : Node → Node) (hf : ∀ n, (f n).nid = n.nid) (h : s.getNode x = some n) :
    (s.updateNode x f).getNode x = some (f n) := by
  rw [Store.getNode_updateNode s x x f hf, h]
  have hn := Store.getNode_nid h
  simp [hn]

theorem Store.getNode_updateNode_ne {s : Store} {x y : Nat}
    (f : Node → Node) (hf : ∀ n, (f n).nid = n.nid) (hne : y ≠ x) :
    (s.updateNode x f).getNode y = s.getNode y := by
  rw [Store.getNode_updateNode s x y f hf]
  cases hg : s.getNode y with
  | none => rfl
  | some n =>
    have hn := Store.getNode_nid hg
    simp [hn, hne]

theorem Store.updateNode_links (s : Store) (x : Nat) (f : Node → Node) :
    (s.updateNode x f).links = s.links := rfl

theorem Store.updateNode_nextId (s : Store) (x : Nat) (f : Node → Node) :
    (s.updateNode x f).nextId = s.nextId := rfl

theorem Store.updateNode_nextPk (s : Store) (x : Nat) (f : Node → Node) :
    (s.updateNode x f).nextPk = s.nextPk := rfl

theorem Store.storeNode_links (s : Store) (x : Nat) :
    (s.storeNode x).links = s.links := by
  unfold Store.storeNode
  cases s.getNode x with
  | none => rfl
  | some n => by_cases h : n.is_stored <;> simp [h, Store.updateNode]

theorem Store.storeNode_nextId (s : Store) (x : Nat) :
    (s.storeNode x).nextId = s.nextId := by
  unfold Store.storeNode
  cases s.getNode x with
  | none => rfl
  | some n => by_cases h : n.is_stored <;> simp [h, Store.updateNode]

theorem Store.getNode_storeNode_ne {s : Store} {x y : Nat} (hne : y ≠ x) :
    (s.storeNode x).getNode y = s.getNode y := by
  unfold Store.storeNode
  cases hg : s.getNode x with
  | none => rfl
  | some n =>
    by_cases h : n.is_stored
    · simp [h]
    · simp only [h, Bool.false_eq_true, if_false]
      have : ({ s.updateNode x (fun m => { m with pk := some s.nextPk, is_stored := true })
          with nextPk := s.nextPk + 1 } : Store).getNode y =
          (s.updateNode x (fun m => { m with pk := some s.nextPk, is_stored := true })).getNode y := rfl
      rw [this]
      exact Store.getNode_updateNode_ne _ (fun _ => rfl) hne

theorem Store.getNode_storeNode_self {s : Store} {x : Nat} {n : Node}
    (h : s.getNode x = some n) :
    (s.storeNode x).getNode x =
      some (if n.is_stored then n
            else { n with pk := some s.nextPk, is_stored := true }) := by
  unfold Store.storeNode
  rw [h]
  by_cases hs : n.is_stored
  · simp [hs, h]
  · simp only [hs, Bool.false_eq_true, if_false]
    have : ({ s.updateNode x (fun m => { m with pk := some s.nextPk, is_stored := true })
        with nextPk := s.nextPk + 1 } : Store).getNode x =
        (s.updateNode x (fun m => { m with pk := some s.nextPk, is_stored := true })).getNode x := rfl
    rw [this]
    exact Store.getNode_updateNode_self _ (fun _ => rfl) h

theorem Store.getNode_sealNode_self {s : Store} {x : Nat} {n : Node}
    (h : s.getNode x = some n) :
    (s.sealNode x).getNode x = some { n with is_sealed := true } := by
  unfold Store.sealNode
  exact Store.getNode_updateNode_self _ (fun _ => rfl) h

theorem Store.getNode_sealNode_ne {s : Store} {x y : Nat} (hne : y ≠ x) :
    (s.sealNode x).getNode y = s.getNode y := by
  unfold Store.sealNode
  exact Store.getNode_updateNode_ne _ (fun _ => rfl) hne

theorem Store.sealNode_links (s : Store) (x : Nat) :
    (s.sealNode x).links = s.links := rfl

theorem Store.getNode_createNode_of_mem {s : Store} {y : Nat} {n : Node}
    {k : NodeKind} (h : s.getNode y = some n) :
    (s.createNode k).1.getNode y = some n := by
  unfold Store.createNode Store.getNode at *
  simp only [List.find?_append, h, Option.or_some]

theorem Store.addLink_eq {s : Store} {tgt : Nat} {n : Node}
    (hg : s.getNode tgt = some n) (src : Nat) (lt : LinkType) (lbl : String) :
    s.addLink src tgt lt lbl =
      (if n.is_sealed then .error .modificationNotAllowed
       else if (decide (lt = .create) || decide (lt = .call)) &&
           !(s.incomingOf tgt lt).isEmpty then .error .valueError
       else if s.links.any (fun l =>
           l.source == src && l.target == tgt && decide (l.ltype = lt) &&
           l.label == lbl) then .error .valueError
       else .ok ⟨s.nodes, s.links ++ [⟨src, tgt, lt, lbl⟩], s.nextId, s.nextPk⟩) := by
  unfold Store.addLink
  rw [hg]

theorem Store.addLink_none {s : Store} {tgt : Nat}
    (hg : s.getNode tgt = none) (src : Nat) (lt : LinkType) (lbl : String) :
    s.addLink src tgt lt lbl = .error .notExistent := by
  unfold Store.addLink
  rw [hg]

theorem Store.addLink_ok {s s' : Store} {src tgt : Nat} {lt : LinkType}
    {lbl : String} (h : s.addLink src tgt lt lbl = .ok s') :
    s'.nodes = s.nodes ∧ s'.links = s.links ++ [⟨src, tgt, lt, lbl⟩] ∧
    s'.nextId = s.nextId ∧ s'.nextPk = s.nextPk := by
  cases hg : s.getNode tgt with
  | none => rw [Store.addLink_none hg] at h; exact Except.noConfusion h
  | some n =>
    rw [Store.addLink_eq hg] at h
    split_ifs at h
    all_goals
      first
      | exact Except.noConfusion h
      | (injection h with h1; subst h1; exact ⟨rfl, rfl, rfl, rfl⟩)

theorem Store.addLink_ok_getNode {s s' : Store} {src tgt : Nat} {lt : LinkType}
    {lbl : String} (h : s.addLink src tgt lt lbl = .ok s') (y : Nat) :
    s'.getNode y = s.getNode y := by
  have hn := (Store.addLink_ok h).1
  unfold Store.getNode
  rw [hn]

theorem Store.addLink_sealed {s : Store} {tgt : Nat} {n : Node}
    (hg : s.getNode tgt = some n) (hs : n.is_sealed = true)
    (src : Nat) (lt : LinkType) (lbl : String) :
    s.addLink src tgt lt lbl = .error .modificationNotAllowed := by
  unfold Store.addLink
  rw [hg]
  simp [hs]

theorem Store.setAttr_eq {s : Store} {nid : Nat} {n : Node}
    (hg : s.getNode nid = some n) (k : String) (v : AVal) :
    s.setAttr nid k v =
      (if n.is_sealed then .error .modificationNotAllowed
       else .ok (s.updateNode nid (fun m =>
         { m with attrs := (m.attrs.filter (fun kv => kv.1 != k)) ++ [(k, v)] }))) := by
  unfold Store.setAttr
  rw [hg]

theorem Store.setAttr_none {s : Store} {nid : Nat}
    (hg : s.getNode nid = none) (k : String) (v : AVal) :
    s.setAttr nid k v = .error .notExistent := by
  unfold Store.setAttr
  rw [hg]

theorem Store.setAttr_ok {s s' : Store} {nid : Nat} {k : String} {v : AVal}
    (h : s.setAttr nid k v = .ok s') :
    s'.links = s.links ∧ s'.nextId = s.nextId ∧ s'.nextPk = s.nextPk ∧
    (∀ y, y ≠ nid → s'.getNode y = s.getNode y) ∧
    (∃ n, s.getNode nid = some n ∧ n.is_sealed = false ∧
      s'.getNode nid =
        some { n with attrs := (n.attrs.filter (fun kv => kv.1 != k)) ++ [(k, v)] }) := by
  cases hg : s.getNode nid with
  | none => rw [Store.setAttr_none hg] at h; exact Except.noConfusion h
  | some n =>
    rw [Store.setAttr_eq hg] at h
    by_cases h1 : n.is_sealed = true
    · rw [if_pos h1] at h; exact Except.noConfusion h
    · rw [if_neg h1] at h
      injection h with h2
      subst h2
      refine ⟨rfl, rfl, rfl, ?_, n, rfl, by simpa using h1, ?_⟩
      · intro y hy
        exact Store.getNode_updateNode_ne _ (fun _ => rfl) hy
      · exact Store.getNode_updateNode_self _ (fun _ => rfl) hg


theorem Store.setAttr_sealed {s : Store} {nid : Nat} {n : Node}
    (hg : s.getNode nid = some n) (hs : n.is_sealed = true)
    (k : String) (v : AVal) :
    s.setAttr nid k v = .error .modificationNotAllowed := by
  unfold Store.setAttr
  rw [hg]
  simp [hs]

/-! ### Claim C4: non-Data output emission raises TypeError, no mutation -/

/-- C4: for every output emission (name, value) during RUNNING where the value
is not of the declared output data type (an AiiDA `Data` instance, the type
`Process.define` declares for dynamic outputs), a `TypeError` is raised and no
node mutation (no link addition, no store) occurs: `on_output_emitted` fails
with `TypeError` and the resulting store is the original one. -/
theorem C4_non_data_output_type_error (s : Store) (calcId : Nat) (port : String) :
    Process.on_output_emitted s calcId .nonDataVal port = .error .typeError ∧
    applyEmit s calcId .nonDataVal port = s :=
  ⟨rfl, rfl⟩

/-! ### Claim C8: `ProcessRegistry.get_outputs` falls through to ValueError -/

/-- C8 (code bug): `get_outputs(pid)` should return the output mapping read
from the stored node when the pid is not in the in-memory finished cache, but
the source discards the computed `get_outputs_dict()` (the `return` is
missing) and falls through to `raise ValueError`.  Concretely: the store holds
a process node with pk 7 whose stored output mapping is `[("result", 1)]`, yet
`get_outputs` with an empty cache raises `ValueError`; the cache branch, by
contrast, works. -/
theorem C8_get_outputs_missing_return :
    ProcessRegistry.get_outputs ⟨[]⟩
      ⟨[⟨0, .calculation, 0, some 7, true, true, []⟩,
        ⟨1, .data, 1, some 8, true, false, []⟩],
       [⟨0, 1, .create, "result"⟩], 2, 9⟩ (.pk 7) = .error .valueError ∧
    get_outputs_dict
      ⟨[⟨0, .calculation, 0, some 7, true, true, []⟩,
        ⟨1, .data, 1, some 8, true, false, []⟩],
       [⟨0, 1, .create, "result"⟩], 2, 9⟩ 0 = [("result", 1)] ∧
    ProcessRegistry.get_outputs ⟨[(.pk 7, [("x", 5)])]⟩
      ⟨[⟨0, .calculation, 0, some 7, true, true, []⟩,
        ⟨1, .data, 1, some 8, true, false, []⟩],
       [⟨0, 1, .create, "result"⟩], 2, 9⟩ (.pk 7) = .ok [("x", 5)] :=
  ⟨rfl, rfl, rfl⟩

/-! ### Claim C9: `FunctionProcess.build` defaults indexing -/

/-- C9 (code bug): each positional parameter should become a port carrying that
parameter's own default, but `_define` indexes `defaults[i]` with the argument
index `i` instead of offsetting by `len(args) - len(defaults)`.  For a function
`f(a, b=5)` (`args = [a, b]`, `defaults = (5,)`) the guard selects `i = 1` and
`defaults[1]` raises `IndexError`; only a fully defaulted signature such as
`f(a=1, b=2)` lines up, as the second conjunct shows (with `**kwargs` enabling
dynamic inputs). -/
theorem C9_defaults_indexing_bug :
    FunctionProcess.build ["a", "b"] [AVal.natV 5] false [] = .error .indexError ∧
    FunctionProcess.build ["a", "b"] [AVal.natV 1, AVal.natV 2] true [] =
      .ok ⟨[("a", some (AVal.natV 1)), ("b", some (AVal.natV 2))], true⟩ :=
  ⟨rfl, rfl⟩

theorem setAttr_ok_of_unsealed {s : Store} {cid : Nat} {n : Node}
    (hg : s.getNode cid = some n) (hns : n.is_sealed = false)
    (k : String) (v : AVal) :
    s.setAttr cid k v = .ok (s.updateNode cid (fun m =>
      { m with attrs := (m.attrs.filter (fun kv => kv.1 != k)) ++ [(k, v)] })) := by
  rw [Store.setAttr_eq hg, if_neg (by simp [hns])]

theorem sealed_rejects_mutation {s : Store} {cid : Nat} {m : Node}
    (hg : s.getNode cid = some m) (hs : m.is_sealed = true) :
    (∀ k v, s.setAttr cid k v = .error .modificationNotAllowed) ∧
    (∀ src lt lbl, s.addLink src cid lt lbl = .error .modificationNotAllowed) :=
  ⟨fun k v => Store.setAttr_sealed hg hs k v,
   fun src lt lbl => Store.addLink_sealed hg hs src lt lbl⟩

/-! ### Claim C1: the node is sealed on the way to STOPPED, then immutable -/

/-- C1: for every process run to completion, whether the execution body returns
normally (the FINISHED path through `on_finish` and `on_stop`) or raises (the
FAILED path through `on_fail` and `on_stop`), the process node is sealed by the
time the process reaches STOPPED, and any subsequent mutation of that node — a
`setAttr` or an incoming `addLink` of any type and label — raises
`ModificationNotAllowed`. -/
theorem C1_sealed_after_stop (s : Store) (cid : Nat) (n : Node)
    (o : Except String Unit)
    (hg : s.getNode cid = some n) (hns : n.is_sealed = false) :
    ∃ s', Process.terminate s cid o = .ok s' ∧
      s'.isSealed cid = true ∧
      (∀ k v, s'.setAttr cid k v = .error .modificationNotAllowed) ∧
      (∀ src lt lbl, s'.addLink src cid lt lbl = .error .modificationNotAllowed) := by
  cases o with
  | ok u =>
    have hset := setAttr_ok_of_unsealed hg hns FINISHED_KEY (.boolV true)
    have hg1 : (s.updateNode cid (fun m =>
        { m with attrs := (m.attrs.filter (fun kv => kv.1 != FINISHED_KEY)) ++
          [(FINISHED_KEY, AVal.boolV true)] })).getNode cid =
        some { n with attrs := (n.attrs.filter (fun kv => kv.1 != FINISHED_KEY)) ++
          [(FINISHED_KEY, AVal.boolV true)] } :=
      Store.getNode_updateNode_self _ (fun _ => rfl) hg
    have hterm : Process.terminate s cid (.ok u) =
        .ok (Process.on_stop (s.updateNode cid (fun m =>
          { m with attrs := (m.attrs.filter (fun kv => kv.1 != FINISHED_KEY)) ++
            [(FINISHED_KEY, AVal.boolV true)] })) cid) := by
      unfold Process.terminate Process.on_finish
      rw [hset]
    have h2 := Store.getNode_sealNode_self hg1
    refine ⟨_, hterm, ?_, (sealed_rejects_mutation h2 rfl).1,
      (sealed_rejects_mutation h2 rfl).2⟩
    unfold Store.isSealed Process.on_stop
    rw [h2]
  | error msg =>
    have hset := setAttr_ok_of_unsealed hg hns FAILED_KEY (.strV msg)
    have hg1 : (s.updateNode cid (fun m =>
        { m with attrs := (m.attrs.filter (fun kv => kv.1 != FAILED_KEY)) ++
          [(FAILED_KEY, AVal.strV msg)] })).getNode cid =
        some { n with attrs := (n.attrs.filter (fun kv => kv.1 != FAILED_KEY)) ++
          [(FAILED_KEY, AVal.strV msg)] } :=
      Store.getNode_updateNode_self _ (fun _ => rfl) hg
    have hg2 := Store.getNode_sealNode_self hg1
    have hterm : Process.terminate s cid (.error msg) =
        .ok (Process.on_stop ((s.updateNode cid (fun m =>
          { m with attrs := (m.attrs.filter (fun kv => kv.1 != FAILED_KEY)) ++
            [(FAILED_KEY, AVal.strV msg)] })).sealNode cid) cid) := by
      simp only [Process.terminate, Process.on_fail, hset]
    have h2 := Store.getNode_sealNode_self hg2
    refine ⟨_, hterm, ?_, (sealed_rejects_mutation h2 rfl).1,
      (sealed_rejects_mutation h2 rfl).2⟩
    unfold Store.isSealed Process.on_stop
    rw [h2]

/-- C1 witness: a concrete stored unsealed process node, run through both
terminal outcomes; all hypotheses discharged by evaluation. -/
theorem C1_sealed_after_stop_witness :
    (⟨[⟨0, .calculation, 0, some 1, true, false, []⟩], [], 1, 2⟩ : Store).getNode 0 =
      some ⟨0, .calculation, 0, some 1, true, false, []⟩ ∧
    (⟨0, .calculation, 0, some 1, true, false, []⟩ : Node).is_sealed = false ∧
    (∃ s', Process.terminate ⟨[⟨0, .calculation, 0, some 1, true, false, []⟩], [], 1, 2⟩ 0 (.error "boom") = .ok s' ∧
      s'.isSealed 0 = true ∧
      (∀ k v, s'.setAttr 0 k v = .error .modificationNotAllowed) ∧
      (∀ src lt lbl, s'.addLink src 0 lt lbl = .error .modificationNotAllowed)) :=
  ⟨by decide, by decide,
   C1_sealed_after_stop _ 0 ⟨0, .calculation, 0, some 1, true, false, []⟩
     (.error "boom") (by decide) (by decide)⟩

theorem Store.getNode_eq_of_nodes_eq {s s' : Store} (h : s'.nodes = s.nodes)
    (y : Nat) : s'.getNode y = s.getNode y := by
  unfold Store.getNode
  rw [h]

theorem linkResolved_none {parent : Option Nat} {sp : Bool} {cid : Nat}
    {s : Store} {nm : String} {t : Nat} (hg : s.getNode t = none) :
    linkResolved parent sp cid s nm t = .error .notExistent := by
  unfold linkResolved
  rw [hg]

theorem linkResolved_eq {s : Store} {t : Nat} {n : Node}
    (hg : s.getNode t = some n) (parent : Option Nat) (sp : Bool)
    (cid : Nat) (nm : String) :
    linkResolved parent sp cid s nm t =
      (match (if n.is_stored then Except.ok s
        else match parent with
          | some pc =>
            match s.addLink pc t .create "CREATE" with
            | .error e => .error e
            | .ok s2 => .ok (if sp then s2.storeNode t else s2)
          | none => .ok (if sp then s.storeNode t else s)) with
       | .error e => Except.error e
       | .ok s3 => s3.addLink t cid .input nm) := by
  unfold linkResolved
  rw [hg]

theorem linkResolved_ok {parent : Option Nat} {sp : Bool} {cid : Nat}
    {s s' : Store} {nm : String} {t : Nat}
    (h : linkResolved parent sp cid s nm t = .ok s') :
    ∃ n, s.getNode t = some n ∧
      ((n.is_stored = true ∧ s.addLink t cid .input nm = .ok s') ∨
       (n.is_stored = false ∧ ∃ s3,
         ((parent = none ∧ s3 = (if sp then s.storeNode t else s)) ∨
          (∃ pc s2, parent = some pc ∧ s.addLink pc t .create "CREATE" = .ok s2 ∧
            s3 = (if sp then s2.storeNode t else s2))) ∧
         s3.addLink t cid .input nm = .ok s')) := by
  cases hg : s.getNode t with
  | none => rw [linkResolved_none hg] at h; exact Except.noConfusion h
  | some n =>
    rw [linkResolved_eq hg] at h
    by_cases hs : n.is_stored = true
    · rw [if_pos hs] at h
      exact ⟨n, rfl, Or.inl ⟨hs, h⟩⟩
    · rw [if_neg hs] at h
      cases parent with
      | none =>
        exact ⟨n, rfl, Or.inr ⟨by simpa using hs, _, Or.inl ⟨rfl, rfl⟩, h⟩⟩
      | some pc =>
        cases hc : s.addLink pc t .create "CREATE" with
        | error e => simp only [hc] at h; exact Except.noConfusion h
        | ok s2 =>
          simp only [hc] at h
          exact ⟨n, rfl, Or.inr ⟨by simpa using hs, _,
            Or.inr ⟨pc, s2, rfl, hc, rfl⟩, h⟩⟩

theorem linkResolved_preserve {parent : Option Nat} {sp : Bool} {cid : Nat}
    {s s' : Store} {nm : String} {t : Nat} {y : Nat} {m : Node}
    (h : linkResolved parent sp cid s nm t = .ok s')
    (hm : s.getNode y = some m) (hcond : m.is_stored = true ∨ y ≠ t) :
    s'.getNode y = some m := by
  obtain ⟨n, hg, hcase⟩ := linkResolved_ok h
  rcases hcase with ⟨hsn, hadd⟩ | ⟨hsn, s3, hd, hadd⟩
  · rw [Store.addLink_ok_getNode hadd y, hm]
  · have hyt : y ≠ t := by
      intro he
      subst he
      rw [hm] at hg
      injection hg with hg'
      subst hg'
      rcases hcond with hst | hne
      · rw [hst] at hsn; exact Bool.noConfusion hsn
      · exact hne rfl
    rw [Store.addLink_ok_getNode hadd y]
    rcases hd with ⟨hp, hs3⟩ | ⟨pc, s2, hp, hc2, hs3⟩
    · subst hs3
      by_cases hspb : sp = true
      · rw [if_pos hspb, Store.getNode_storeNode_ne hyt, hm]
      · rw [if_neg hspb, hm]
    · subst hs3
      have h2 : s2.getNode y = s.getNode y := Store.addLink_ok_getNode hc2 y
      by_cases hspb : sp = true
      · rw [if_pos hspb, Store.getNode_storeNode_ne hyt, h2, hm]
      · rw [if_neg hspb, h2, hm]

theorem linkResolved_links {parent : Option Nat} {sp : Bool} {cid : Nat}
    {s s' : Store} {nm : String} {t : Nat}
    (h : linkResolved parent sp cid s nm t = .ok s') :
    ∃ L, s'.links = s.links ++ L ∧
      ∀ l ∈ L, (l.ltype = .input ∧ l.target = cid) ∨
        (l.ltype = .create ∧ l.target = t ∧
          ∃ n, s.getNode t = some n ∧ n.is_stored = false) := by
  obtain ⟨n, hg, hcase⟩ := linkResolved_ok h
  rcases hcase with ⟨hsn, hadd⟩ | ⟨hsn, s3, hd, hadd⟩
  · refine ⟨[⟨t, cid, .input, nm⟩], (Store.addLink_ok hadd).2.1, ?_⟩
    intro l hl
    simp only [List.mem_singleton] at hl
    subst hl
    exact Or.inl ⟨rfl, rfl⟩
  · have hadd2 := (Store.addLink_ok hadd).2.1
    rcases hd with ⟨hp, hs3⟩ | ⟨pc, s2, hp, hc2, hs3⟩
    · subst hs3
      have hl3 : (if sp then s.storeNode t else s).links = s.links := by
        by_cases hspb : sp = true
        · rw [if_pos hspb, Store.storeNode_links]
        · rw [if_neg hspb]
      refine ⟨[⟨t, cid, .input, nm⟩], ?_, ?_⟩
      · rw [hadd2, hl3]
      · intro l hl
        simp only [List.mem_singleton] at hl
        subst hl
        exact Or.inl ⟨rfl, rfl⟩
    · subst hs3
      have hl2 := (Store.addLink_ok hc2).2.1
      have hl3 : (if sp then s2.storeNode t else s2).links = s2.links := by
        by_cases hspb : sp = true
        · rw [if_pos hspb, Store.storeNode_links]
        · rw [if_neg hspb]
      refine ⟨[⟨pc, t, .create, "CREATE"⟩, ⟨t, cid, .input, nm⟩], ?_, ?_⟩
      · rw [hadd2, hl3, hl2, List.append_assoc]
        rfl
      · intro l hl
        simp only [List.mem_cons, List.mem_singleton, List.not_mem_nil,
          or_false] at hl
        rcases hl with hl | hl <;> subst hl
        · exact Or.inr ⟨rfl, rfl, n, hg, hsn⟩
        · exact Or.inl ⟨rfl, rfl⟩

theorem linkResolved_nextId {parent : Option Nat} {sp : Bool} {cid : Nat}
    {s s' : Store} {nm : String} {t : Nat}
    (h : linkResolved parent sp cid s nm t = .ok s') :
    s'.nextId = s.nextId := by
  obtain ⟨n, hg, hcase⟩ := linkResolved_ok h
  rcases hcase with ⟨hsn, hadd⟩ | ⟨hsn, s3, hd, hadd⟩
  · exact (Store.addLink_ok hadd).2.2.1
  · have h1 := (Store.addLink_ok hadd).2.2.1
    rcases hd with ⟨hp, hs3⟩ | ⟨pc, s2, hp, hc2, hs3⟩
    · subst hs3
      rw [h1]
      by_cases hspb : sp = true
      · rw [if_pos hspb, Store.storeNode_nextId]
      · rw [if_neg hspb]
    · subst hs3
      rw [h1]
      have h2 := (Store.addLink_ok hc2).2.2.1
      by_cases hspb : sp = true
      · rw [if_pos hspb, Store.storeNode_nextId, h2]
      · rw [if_neg hspb, h2]

theorem linkResolved_tracked {parent : Option Nat} {cid : Nat}
    {s s' : Store} {nm : String} {t : Nat} {n : Node}
    (h : linkResolved parent true cid s nm t = .ok s')
    (hg : s.getNode t = some n) (hsn : n.is_stored = false) :
    s'.getNode t = some { n with pk := some s.nextPk, is_stored := true } ∧
    s'.links = s.links ++
      ((match parent with
        | some pc => [⟨pc, t, .create, "CREATE"⟩]
        | none => ([] : List Link)) ++ [⟨t, cid, .input, nm⟩]) := by
  obtain ⟨n1, hg1, hcase⟩ := linkResolved_ok h
  rw [hg] at hg1
  injection hg1 with hg2
  subst hg2
  rcases hcase with ⟨hsn1, hadd⟩ | ⟨hsn1, s3, hd, hadd⟩
  · rw [hsn] at hsn1; exact Bool.noConfusion hsn1
  · have haddg := Store.addLink_ok_getNode hadd t
    have haddl := (Store.addLink_ok hadd).2.1
    rcases hd with ⟨hp, hs3⟩ | ⟨pc, s2, hp, hc2, hs3⟩
    · subst hp
      rw [if_pos rfl] at hs3
      subst hs3
      constructor
      · rw [haddg, Store.getNode_storeNode_self hg, hsn]
        rfl
      · rw [haddl, Store.storeNode_links]
        rfl
    · subst hp
      rw [if_pos rfl] at hs3
      subst hs3
      have h2g : s2.getNode t = some n := by
        rw [Store.addLink_ok_getNode hc2 t, hg]
      have h2pk := (Store.addLink_ok hc2).2.2.2
      have h2l := (Store.addLink_ok hc2).2.1
      constructor
      · rw [haddg, Store.getNode_storeNode_self h2g, hsn, h2pk]
        rfl
      · rw [haddl, Store.storeNode_links, h2l, List.append_assoc]

theorem linkOne_ok {parent : Option Nat} {sp : Bool} {cid : Nat}
    {s s' : Store} {nm : String} {inp : InVal}
    (h : linkOne parent sp cid s nm inp = .ok s') :
    ∃ nid0 n0, inp = .nodeV nid0 ∧ s.getNode nid0 = some n0 ∧
      ((n0.kind = .data ∧ linkResolved parent sp cid s nm nid0 = .ok s') ∨
       (n0.kind = .calculation ∧
         linkResolved parent sp cid (s.createNode .data).1 nm s.nextId = .ok s')) := by
  cases inp with
  | nodeV nid0 =>
    unfold linkOne at h
    cases hg : s.getNode nid0 with
    | none => simp only [hg] at h; exact Except.noConfusion h
    | some n0 =>
      simp only [hg] at h
      by_cases hk : n0.kind = .calculation
      · rw [if_pos hk] at h
        exact ⟨nid0, n0, rfl, hg, Or.inr ⟨hk, h⟩⟩
      · rw [if_neg hk] at h
        have hd : n0.kind = .data := by
          cases hc : n0.kind with
          | data => rfl
          | calculation => exact absurd hc hk
        exact ⟨nid0, n0, rfl, hg, Or.inl ⟨hd, h⟩⟩
  | groupV es => exact Except.noConfusion h
  | rawV v => exact Except.noConfusion h

theorem linkOne_nextId_mono {parent : Option Nat} {sp : Bool} {cid : Nat}
    {s s' : Store} {nm : String} {inp : InVal}
    (h : linkOne parent sp cid s nm inp = .ok s') :
    s.nextId ≤ s'.nextId := by
  obtain ⟨nid0, n0, hinp, hg0, hbr⟩ := linkOne_ok h
  rcases hbr with ⟨hk, hlr⟩ | ⟨hk, hlr⟩
  · rw [linkResolved_nextId hlr]
  · rw [linkResolved_nextId hlr]
    exact Nat.le_succ s.nextId

theorem linkOne_links {parent : Option Nat} {sp : Bool} {cid : Nat}
    {s s' : Store} {nm : String} {inp : InVal}
    (h : linkOne parent sp cid s nm inp = .ok s') :
    ∃ L, s'.links = s.links ++ L ∧
      ∀ l ∈ L, (l.ltype = .input ∧ l.target = cid) ∨
        (l.ltype = .create ∧
          ((inp = .nodeV l.target ∧ ∃ n1, s.getNode l.target = some n1 ∧
            n1.is_stored = false ∧ n1.kind = .data) ∨
           s.nextId ≤ l.target)) := by
  obtain ⟨nid0, n0, hinp, hg0, hbr⟩ := linkOne_ok h
  rcases hbr with ⟨hk, hlr⟩ | ⟨hk, hlr⟩
  · obtain ⟨L, hL, hmem⟩ := linkResolved_links hlr
    refine ⟨L, hL, ?_⟩
    intro l hl
    rcases hmem l hl with hi | ⟨hc, ht, n1, hgn, hst⟩
    · exact Or.inl hi
    · subst ht
      rw [hg0] at hgn
      injection hgn with hgn1
      subst hgn1
      exact Or.inr ⟨hc, Or.inl ⟨hinp, n0, hg0, hst, hk⟩⟩
  · obtain ⟨L, hL, hmem⟩ := linkResolved_links hlr
    refine ⟨L, ?_, ?_⟩
    · rw [hL]; rfl
    · intro l hl
      rcases hmem l hl with hi | ⟨hc, ht, n1, hgn, hst⟩
      · exact Or.inl hi
      · exact Or.inr ⟨hc, Or.inr (le_of_eq ht.symm)⟩

theorem linkOne_preserve {parent : Option Nat} {sp : Bool} {cid : Nat}
    {s s' : Store} {nm : String} {inp : InVal} {x : Nat} {m : Node}
    (h : linkOne parent sp cid s nm inp = .ok s')
    (hx : x < s.nextId) (hm : s.getNode x = some m)
    (hcond : inp ≠ .nodeV x ∨ m.is_stored = true ∨ m.kind = .calculation) :
    s'.getNode x = some m := by
  obtain ⟨nid0, n0, hinp, hg0, hbr⟩ := linkOne_ok h
  rcases hbr with ⟨hk, hlr⟩ | ⟨hk, hlr⟩
  · refine linkResolved_preserve hlr hm ?_
    rcases hcond with hne | hst | hkc
    · right
      intro he
      subst he
      exact hne hinp
    · exact Or.inl hst
    · right
      intro he
      subst he
      rw [hm] at hg0
      injection hg0 with hg1
      subst hg1
      rw [hkc] at hk
      exact NodeKind.noConfusion hk
  · have hm1 : (s.createNode .data).1.getNode x = some m :=
      Store.getNode_createNode_of_mem hm
    exact linkResolved_preserve hlr hm1 (Or.inr (Nat.ne_of_lt hx))

theorem Store.incomingOf_append {s s' : Store} {L : List Link}
    (h : s'.links = s.links ++ L) (nid : Nat) (lt : LinkType) :
    s'.incomingOf nid lt = s.incomingOf nid lt ++
      L.filter (fun l => l.target == nid && decide (l.ltype = lt)) := by
  unfold Store.incomingOf
  rw [h, List.filter_append]

theorem linkOne_step_preserve {parent : Option Nat} {sp : Bool} {cid : Nat}
    {s s1 : Store} {nm : String} {inp : InVal} {x : Nat} {m : Node}
    (h1 : linkOne parent sp cid s nm inp = .ok s1)
    (hx : x < s.nextId) (hm : s.getNode x = some m)
    (hcond : inp ≠ .nodeV x ∨ m.is_stored = true ∨ m.kind = .calculation) :
    s1.getNode x = some m ∧ s1.createLinksTo x = s.createLinksTo x := by
  refine ⟨linkOne_preserve h1 hx hm hcond, ?_⟩
  obtain ⟨L, hL, hmem⟩ := linkOne_links h1
  unfold Store.createLinksTo
  rw [Store.incomingOf_append hL x .create]
  have hnil : L.filter (fun l => l.target == x && decide (l.ltype = .create)) = [] := by
    rw [List.filter_eq_nil_iff]
    intro l hl
    rcases hmem l hl with ⟨hi, _⟩ | ⟨hc, hsub⟩
    · simp [hi]
    · by_cases hte : l.target = x
      · rcases hsub with ⟨hinp, n1, hgn, hstn, hknd⟩ | hge
        · rw [hte] at hinp hgn
          rcases hcond with hne | hst | hkc
          · exact absurd hinp hne
          · rw [hm] at hgn
            injection hgn with hgn1
            subst hgn1
            rw [hst] at hstn
            exact absurd hstn (by simp)
          · rw [hm] at hgn
            injection hgn with hgn1
            subst hgn1
            rw [hkc] at hknd
            exact absurd hknd (by simp)
        · rw [hte] at hge
          exact absurd hge (Nat.not_le_of_lt hx)
      · simp [hte]
  rw [hnil, List.append_nil]

theorem linkInputs_nextId_mono {parent : Option Nat} {sp : Bool} {cid : Nat}
    (tl : List (String × InVal)) :
    ∀ {s s' : Store}, linkInputs parent sp cid s tl = .ok s' →
      s.nextId ≤ s'.nextId := by
  induction tl with
  | nil =>
    intro s s' h
    injection h with h'
    exact le_of_eq (by rw [h'])
  | cons e rest ih =>
    intro s s' h
    obtain ⟨nm, inp⟩ := e
    unfold linkInputs at h
    cases h1 : linkOne parent sp cid s nm inp with
    | error e2 => simp only [h1] at h; exact Except.noConfusion h
    | ok s1 =>
      simp only [h1] at h
      exact le_trans (linkOne_nextId_mono h1) (ih h)

theorem linkInputs_preserve {parent : Option Nat} {sp : Bool} {cid : Nat}
    (tl : List (String × InVal)) :
    ∀ {s s' : Store} {x : Nat} {m : Node},
    linkInputs parent sp cid s tl = .ok s' →
    x < s.nextId → s.getNode x = some m →
    (m.is_stored = true ∨ m.kind = .calculation ∨
      (∀ e ∈ tl, e.2 ≠ InVal.nodeV x)) →
    s'.getNode x = some m ∧ s'.createLinksTo x = s.createLinksTo x := by
  induction tl with
  | nil =>
    intro s s' x m h hx hm _
    injection h with h'
    subst h'
    exact ⟨hm, rfl⟩
  | cons e rest ih =>
    intro s s' x m h hx hm hcond
    obtain ⟨nm, inp⟩ := e
    unfold linkInputs at h
    cases h1 : linkOne parent sp cid s nm inp with
    | error e2 => simp only [h1] at h; exact Except.noConfusion h
    | ok s1 =>
      simp only [h1] at h
      have hcond1 : inp ≠ .nodeV x ∨ m.is_stored = true ∨ m.kind = .calculation := by
        rcases hcond with hst | hkc | hall
        · exact Or.inr (Or.inl hst)
        · exact Or.inr (Or.inr hkc)
        · exact Or.inl (hall (nm, inp) (List.mem_cons_self _ _))
      obtain ⟨hg1, hcr1⟩ := linkOne_step_preserve h1 hx hm hcond1
      have hx1 : x < s1.nextId := lt_of_lt_of_le hx (linkOne_nextId_mono h1)
      have hcond2 : m.is_stored = true ∨ m.kind = .calculation ∨
          (∀ e2 ∈ rest, e2.2 ≠ InVal.nodeV x) := by
        rcases hcond with hst | hkc | hall
        · exact Or.inl hst
        · exact Or.inr (Or.inl hkc)
        · exact Or.inr (Or.inr (fun e2 he2 => hall e2 (List.mem_cons_of_mem _ he2)))
      obtain ⟨hg2, hcr2⟩ := ih h hx1 hg1 hcond2
      exact ⟨hg2, by rw [hcr2, hcr1]⟩

theorem linkInputs_incomingOf_preserved {parent : Option Nat} {sp : Bool}
    {cid : Nat} (tl : List (String × InVal)) :
    ∀ {s s' : Store}, linkInputs parent sp cid s tl = .ok s' →
    ∀ (z : Nat) (lt : LinkType), lt ≠ .create → lt ≠ .input →
      s'.incomingOf z lt = s.incomingOf z lt := by
  induction tl with
  | nil =>
    intro s s' h z lt hlc hli
    injection h with h'
    subst h'
    rfl
  | cons e rest ih =>
    intro s s' h z lt hlc hli
    obtain ⟨nm, inp⟩ := e
    unfold linkInputs at h
    cases h1 : linkOne parent sp cid s nm inp with
    | error e2 => simp only [h1] at h; exact Except.noConfusion h
    | ok s1 =>
      simp only [h1] at h
      obtain ⟨L, hL, hmem⟩ := linkOne_links h1
      have hstep : s1.incomingOf z lt = s.incomingOf z lt := by
        rw [Store.incomingOf_append hL z lt]
        have hnil : L.filter (fun l => l.target == z && decide (l.ltype = lt)) = [] := by
          rw [List.filter_eq_nil_iff]
          intro l hl
          rcases hmem l hl with ⟨hi, _⟩ | ⟨hc, _⟩
          · simp [hi, Ne.symm hli]
          · simp [hc, Ne.symm hlc]
        rw [hnil, List.append_nil]
      rw [ih h z lt hlc hli, hstep]

theorem linkInputs_tracked {parent : Option Nat} {cid : Nat}
    (tl : List (String × InVal)) :
    ∀ {s s' : Store} {x : Nat} {n : Node},
    linkInputs parent true cid s tl = .ok s' →
    x < s.nextId → s.getNode x = some n →
    n.kind = .data → n.is_stored = false →
    s.createLinksTo x = [] →
    tl.countP (fun e => decide (e.2 = InVal.nodeV x)) = 1 →
    ∃ n', s'.getNode x = some n' ∧ n'.is_stored = true ∧
      s'.createLinksTo x =
        (match parent with
         | some pc => [⟨pc, x, .create, "CREATE"⟩]
         | none => ([] : List Link)) := by
  induction tl with
  | nil =>
    intro s s' x n h hx hm hknd hst hcr hcount
    simp [List.countP_nil] at hcount
  | cons e rest ih =>
    intro s s' x n h hx hm hknd hst hcr hcount
    obtain ⟨nm, inp⟩ := e
    unfold linkInputs at h
    cases h1 : linkOne parent true cid s nm inp with
    | error e2 => simp only [h1] at h; exact Except.noConfusion h
    | ok s1 =>
      simp only [h1] at h
      rw [List.countP_cons] at hcount
      by_cases hhead : inp = InVal.nodeV x
      · -- the tracked input is processed by this iteration
        have hrest0 : rest.countP (fun e => decide (e.2 = InVal.nodeV x)) = 0 := by
          simp only [hhead] at hcount
          simpa using hcount
        -- this step stores x and adds the CREATE link from the parent
        subst hhead
        obtain ⟨nid0, n0, hinp, hg0, hbr⟩ := linkOne_ok h1
        injection hinp with hinp1
        subst hinp1
        rw [hm] at hg0
        injection hg0 with hg01
        subst hg01
        rcases hbr with ⟨_, hlr⟩ | ⟨hkc, _⟩
        · obtain ⟨hg1, hl1⟩ := linkResolved_tracked hlr hm hst
          have hcr1 : s1.createLinksTo x =
              (match parent with
               | some pc => [⟨pc, x, .create, "CREATE"⟩]
               | none => ([] : List Link)) := by
            unfold Store.createLinksTo
            rw [Store.incomingOf_append hl1 x .create]
            have hcr2 : s.incomingOf x .create = [] := hcr
            rw [hcr2, List.nil_append, List.filter_append]
            cases parent with
            | none => simp
            | some pc => simp
          have hx1 : x < s1.nextId := lt_of_lt_of_le hx (linkOne_nextId_mono h1)
          obtain ⟨hg2, hcr2⟩ := linkInputs_preserve rest h hx1 hg1
            (Or.inl rfl)
          refine ⟨_, hg2, rfl, ?_⟩
          rw [hcr2, hcr1]
          cases parent <;> rfl
        · rw [hknd] at hkc
          exact NodeKind.noConfusion hkc
      · -- this iteration concerns a different input
        have hrest1 : rest.countP (fun e => decide (e.2 = InVal.nodeV x)) = 1 := by
          simp only [hhead] at hcount
          simpa using hcount
        obtain ⟨hg1, hcr1⟩ := linkOne_step_preserve h1 hx hm (Or.inl hhead)
        have hx1 : x < s1.nextId := lt_of_lt_of_le hx (linkOne_nextId_mono h1)
        obtain ⟨n', hg2, hst2, hcr2⟩ := ih h hx1 hg1 hknd hst (by rw [hcr1, hcr]) hrest1
        exact ⟨n', hg2, hst2, hcr2⟩

/-- Core (attribute-independent) fields of two nodes agree. -/
def Node.coreEq (a b : Node) : Prop :=
  a.nid = b.nid ∧ a.kind = b.kind ∧ a.uuid = b.uuid ∧ a.pk = b.pk ∧
  a.is_stored = b.is_stored ∧ a.is_sealed = b.is_sealed

theorem Node.coreEq_refl (a : Node) : a.coreEq a :=
  ⟨rfl, rfl, rfl, rfl, rfl, rfl⟩

theorem Node.coreEq_trans {a b c : Node} (h1 : a.coreEq b) (h2 : b.coreEq c) :
    a.coreEq c :=
  ⟨h1.1.trans h2.1, h1.2.1.trans h2.2.1, h1.2.2.1.trans h2.2.2.1,
   h1.2.2.2.1.trans h2.2.2.2.1, h1.2.2.2.2.1.trans h2.2.2.2.2.1,
   h1.2.2.2.2.2.trans h2.2.2.2.2.2⟩

theorem Store.setAttr_ok_eq {s s1 : Store} {nid : Nat} {k : String} {v : AVal}
    (h : s.setAttr nid k v = .ok s1) :
    s1 = s.updateNode nid (fun m =>
      { m with attrs := (m.attrs.filter (fun kv => kv.1 != k)) ++ [(k, v)] }) := by
  cases hg : s.getNode nid with
  | none => rw [Store.setAttr_none hg] at h; exact Except.noConfusion h
  | some n =>
    rw [Store.setAttr_eq hg] at h
    by_cases h1 : n.is_sealed = true
    · rw [if_pos h1] at h; exact Except.noConfusion h
    · rw [if_neg h1] at h
      injection h with h2
      exact h2.symm

theorem Store.load_node_updateNode (s : Store) (x : Nat) (f : Node → Node)
    (hnid : ∀ n, (f n).nid = n.nid) (hpk : ∀ n, (f n).pk = n.pk)
    (huuid : ∀ n, (f n).uuid = n.uuid) (hst : ∀ n, (f n).is_stored = n.is_stored)
    (pid : Pid) : (s.updateNode x f).load_node pid = s.load_node pid := by
  have hnodes : (s.updateNode x f).nodes =
      s.nodes.map (fun n => if (n.nid == x) = true then f n else n) := rfl
  cases pid with
  | pk k =>
    show (match (s.updateNode x f).nodes.find? (fun n => n.pk == some k) with
        | some n => Except.ok n.nid
        | none => Except.error PErr.notExistent) =
      (match s.nodes.find? (fun n => n.pk == some k) with
        | some n => Except.ok n.nid
        | none => Except.error PErr.notExistent)
    rw [hnodes, List.find?_map]
    have hp : ((fun n => n.pk == some k) ∘
        fun n => if (n.nid == x) = true then f n else n) =
        (fun n : Node => n.pk == some k) := by
      funext n
      by_cases hx : (n.nid == x) = true <;> simp [Function.comp, hx, hpk]
    rw [hp]
    cases hf : s.nodes.find? (fun n => n.pk == some k) with
    | none => rfl
    | some m =>
      simp only [Option.map_some']
      by_cases hx : (m.nid == x) = true <;> simp [hx, hnid]
  | uuidPid u =>
    show (match (s.updateNode x f).nodes.find? (fun n => n.uuid == u && n.is_stored) with
        | some n => Except.ok n.nid
        | none => Except.error PErr.notExistent) =
      (match s.nodes.find? (fun n => n.uuid == u && n.is_stored) with
        | some n => Except.ok n.nid
        | none => Except.error PErr.notExistent)
    rw [hnodes, List.find?_map]
    have hp : ((fun n => n.uuid == u && n.is_stored) ∘
        fun n => if (n.nid == x) = true then f n else n) =
        (fun n : Node => n.uuid == u && n.is_stored) := by
      funext n
      by_cases hx : (n.nid == x) = true <;> simp [Function.comp, hx, huuid, hst]
    rw [hp]
    cases hf : s.nodes.find? (fun n => n.uuid == u && n.is_stored) with
    | none => rfl
    | some m =>
      simp only [Option.map_some']
      by_cases hx : (m.nid == x) = true <;> simp [hx, hnid]

theorem get_parent_calc_setAttr {s s1 : Store} {nid : Nat} {k : String}
    {v : AVal} (h : s.setAttr nid k v = .ok s1) (pp : Option Pid) :
    get_parent_calc s1 pp = get_parent_calc s pp := by
  rw [Store.setAttr_ok_eq h]
  unfold get_parent_calc
  cases pp with
  | none => rfl
  | some pid =>
    show (match (s.updateNode nid (fun m =>
        { m with attrs := (m.attrs.filter (fun kv => kv.1 != k)) ++ [(k, v)] })).load_node pid with
      | Except.ok nid => some nid
      | Except.error _ => none) =
      (match s.load_node pid with
      | Except.ok nid => some nid
      | Except.error _ => none)
    rw [Store.load_node_updateNode s nid (fun m =>
      { m with attrs := (m.attrs.filter (fun kv => kv.1 != k)) ++ [(k, v)] })
      (fun _ => rfl) (fun _ => rfl) (fun _ => rfl) (fun _ => rfl) pid]

theorem Store.setAttr_core {s s1 : Store} {nid : Nat} {k : String} {v : AVal}
    (h : s.setAttr nid k v = .ok s1) (y : Nat) (m : Node)
    (hm : s.getNode y = some m) :
    ∃ m', s1.getNode y = some m' ∧ m'.coreEq m := by
  obtain ⟨hl, hni, hnp, hne, n, hn, hns, hupd⟩ := Store.setAttr_ok h
  by_cases hy : y = nid
  · subst hy
    rw [hm] at hn
    injection hn with hn1
    subst hn1
    exact ⟨_, hupd, Node.coreEq_refl _ |>.1 ▸ ⟨rfl, rfl, rfl, rfl, rfl, rfl⟩⟩
  · rw [hne y hy, hm]
    exact ⟨m, rfl, Node.coreEq_refl m⟩

theorem setMetaAttr_ok {s t : Store} {cid : Nat}
    {inputs : List (String × InVal)} {ik ak : String}
    (h : setMetaAttr s cid inputs ik ak = .ok t) :
    t.links = s.links ∧ t.nextId = s.nextId ∧ t.nextPk = s.nextPk ∧
    (∀ y m, s.getNode y = some m → ∃ m', t.getNode y = some m' ∧ m'.coreEq m) := by
  unfold setMetaAttr at h
  cases hd : lookupStr inputs ik with
  | none =>
    simp only [hd] at h
    injection h with h1
    subst h1
    exact ⟨rfl, rfl, rfl, fun y m hm => ⟨m, hm, Node.coreEq_refl m⟩⟩
  | some iv =>
    simp only [hd] at h
    cases iv with
    | rawV v =>
      obtain ⟨hl, hni, hnp, _, _⟩ := Store.setAttr_ok h
      exact ⟨hl, hni, hnp, fun y m hm => Store.setAttr_core h y m hm⟩
    | nodeV nid2 =>
      injection h with h1
      subst h1
      exact ⟨rfl, rfl, rfl, fun y m hm => ⟨m, hm, Node.coreEq_refl m⟩⟩
    | groupV es =>
      injection h with h1
      subst h1
      exact ⟨rfl, rfl, rfl, fun y m hm => ⟨m, hm, Node.coreEq_refl m⟩⟩

theorem applyMetaInputs_ok {s s' : Store} {cid : Nat}
    {inputs : List (String × InVal)}
    (h : applyMetaInputs s cid inputs = .ok s') :
    s'.links = s.links ∧ s'.nextId = s.nextId ∧ s'.nextPk = s.nextPk ∧
    (∀ y m, s.getNode y = some m → ∃ m', s'.getNode y = some m' ∧ m'.coreEq m) := by
  unfold applyMetaInputs at h
  cases h1 : setMetaAttr s cid inputs "_description" "description" with
  | error e => simp only [h1] at h; exact Except.noConfusion h
  | ok s1 =>
    simp only [h1] at h
    obtain ⟨hl1, hni1, hnp1, hc1⟩ := setMetaAttr_ok h1
    obtain ⟨hl2, hni2, hnp2, hc2⟩ := setMetaAttr_ok h
    refine ⟨hl2.trans hl1, hni2.trans hni1, hnp2.trans hnp1, ?_⟩
    intro y m hm
    obtain ⟨m1, hm1, hcore1⟩ := hc1 y m hm
    obtain ⟨m2, hm2, hcore2⟩ := hc2 y m1 hm1
    exact ⟨m2, hm2, Node.coreEq_trans hcore2 hcore1⟩

theorem setup_db_record_ok {s s' : Store} {p : Process}
    (h : setup_db_record s p = .ok s') :
    ∃ calcNode s1 toLink s2 s3,
      s.getNode p.calcId = some calcNode ∧ calcNode.is_sealed = false ∧
      s.setAttr p.calcId PROCESS_LABEL_ATTR (.strV p.className) = .ok s1 ∧
      buildToLink p.spec p.inputs = .ok toLink ∧
      linkInputs (get_parent_calc s1 p.parentPid) p.store_provenance
        p.calcId s1 toLink = .ok s2 ∧
      (match get_parent_calc s1 p.parentPid with
       | some pc => s2.addLink pc p.calcId .call "CALL" = .ok s3
       | none => s3 = s2) ∧
      applyMetaInputs s3 p.calcId p.inputs = .ok s' := by
  unfold setup_db_record at h
  cases hg : s.getNode p.calcId with
  | none => simp only [hg] at h; exact Except.noConfusion h
  | some calcNode =>
    simp only [hg] at h
    by_cases hsl : calcNode.is_sealed = true
    · rw [if_pos hsl] at h; exact Except.noConfusion h
    · rw [if_neg hsl] at h
      cases h2 : s.setAttr p.calcId PROCESS_LABEL_ATTR (.strV p.className) with
      | error e => simp only [h2] at h; exact Except.noConfusion h
      | ok s1 =>
        simp only [h2] at h
        cases h3 : buildToLink p.spec p.inputs with
        | error e => simp only [h3] at h; exact Except.noConfusion h
        | ok toLink =>
          simp only [h3] at h
          cases h4 : linkInputs (get_parent_calc s1 p.parentPid)
              p.store_provenance p.calcId s1 toLink with
          | error e => simp only [h4] at h; exact Except.noConfusion h
          | ok s2 =>
            simp only [h4] at h
            cases hp : get_parent_calc s1 p.parentPid with
            | none =>
              simp only [hp] at h
              exact ⟨calcNode, s1, toLink, s2, s2, rfl, by simpa using hsl,
                rfl, rfl, h4, by rw [hp], h⟩
            | some pc =>
              simp only [hp] at h
              cases h5 : s2.addLink pc p.calcId .call "CALL" with
              | error e => simp only [h5] at h; exact Except.noConfusion h
              | ok s3 =>
                simp only [h5] at h
                exact ⟨calcNode, s1, toLink, s2, s3, rfl, by simpa using hsl,
                  rfl, rfl, h4, by rw [hp]; exact h5, h⟩

theorem Store.createLinksTo_eq_of_links_eq {s s' : Store}
    (h : s'.links = s.links) (x : Nat) :
    s'.createLinksTo x = s.createLinksTo x := by
  unfold Store.createLinksTo Store.incomingOf
  rw [h]

theorem Store.createLinksTo_append_call {s s' : Store} {l : Link}
    (h : s'.links = s.links ++ [l]) (hl : l.ltype = .call) (x : Nat) :
    s'.createLinksTo x = s.createLinksTo x := by
  unfold Store.createLinksTo
  rw [Store.incomingOf_append h x .create]
  simp [hl]

/-! ### Claim C2: unstored inputs get a CREATE link from the caller, then are stored -/

/-- C2: for every input node that reaches the `to_link` loop (here: a data node
`x` occurring exactly once among the collected `to_link` entries) and is
unstored at process construction, when provenance storage is enabled for the
run, `_setup_db_record` adds a CREATE link from the caller's node before
storing the input; afterwards the input is stored and carries exactly one
incoming CREATE link, from the caller — or none when the process is top-level
(no parent resolves). -/
theorem C2_unstored_input_create_and_store
    (s s' : Store) (p : Process) (x : Nat) (n : Node)
    (toLink : List (String × InVal)) (po : Option Nat)
    (h : setup_db_record s p = .ok s')
    (hsp : p.store_provenance = true)
    (htl : buildToLink p.spec p.inputs = .ok toLink)
    (hcount : toLink.countP (fun e => decide (e.2 = InVal.nodeV x)) = 1)
    (hx : x < s.nextId)
    (hxc : x ≠ p.calcId)
    (hm : s.getNode x = some n)
    (hknd : n.kind = .data)
    (hst : n.is_stored = false)
    (hcr : s.createLinksTo x = [])
    (hpar : get_parent_calc s p.parentPid = po) :
    ∃ n', s'.getNode x = some n' ∧ n'.is_stored = true ∧
      s'.createLinksTo x =
        (match po with
         | some pc => [⟨pc, x, .create, "CREATE"⟩]
         | none => ([] : List Link)) := by
  obtain ⟨calcNode, s1, toLink2, s2, s3, hgC, hslC, hset, htl2, hlink, hcall,
    hmeta⟩ := setup_db_record_ok h
  rw [htl] at htl2
  injection htl2 with htl3
  subst htl3
  have hpar1 : get_parent_calc s1 p.parentPid = po := by
    rw [get_parent_calc_setAttr hset, hpar]
  obtain ⟨hl1, hni1, hnp1, hothers, nC, hnC, hnsC, hupdC⟩ := Store.setAttr_ok hset
  have hm1 : s1.getNode x = some n := by rw [hothers x hxc, hm]
  have hcr1 : s1.createLinksTo x = [] := by
    rw [Store.createLinksTo_eq_of_links_eq hl1 x, hcr]
  have hx1 : x < s1.nextId := by rw [hni1]; exact hx
  rw [hpar1, hsp] at hlink
  obtain ⟨n', hg2, hst2, hcr2⟩ :=
    linkInputs_tracked toLink hlink hx1 hm1 hknd hst hcr1 hcount
  rw [hpar1] at hcall
  have hstep3 : s3.getNode x = some n' ∧
      s3.createLinksTo x = s2.createLinksTo x := by
    cases po with
    | none =>
      have hs3 : s3 = s2 := hcall
      subst hs3
      exact ⟨hg2, rfl⟩
    | some pc =>
      have hc2 : s2.addLink pc p.calcId .call "CALL" = .ok s3 := hcall
      obtain ⟨hn3, hl3, _, _⟩ := Store.addLink_ok hc2
      refine ⟨?_, Store.createLinksTo_append_call hl3 rfl x⟩
      rw [Store.getNode_eq_of_nodes_eq hn3 x, hg2]
  obtain ⟨hlM, hniM, hnpM, hcoreM⟩ := applyMetaInputs_ok hmeta
  obtain ⟨n2, hgF, hcoreF⟩ := hcoreM x n' hstep3.1
  refine ⟨n2, hgF, ?_, ?_⟩
  · rw [hcoreF.2.2.2.2.1, hst2]
  · rw [Store.createLinksTo_eq_of_links_eq hlM x, hstep3.2, hcr2]
    cases po <;> rfl

/-- C2 witness: a concrete run — parent node 0 (stored, pk 1), fresh process
node 1, unstored data input node 2 — on which the hypotheses hold by
evaluation and the theorem yields the stored input with exactly the one CREATE
link from the parent. -/
theorem C2_unstored_input_witness :
    setup_db_record
      ⟨[⟨0, .calculation, 0, some 1, true, false, []⟩,
        ⟨1, .calculation, 1, none, false, false, []⟩,
        ⟨2, .data, 2, none, false, false, []⟩], [], 3, 2⟩
      ⟨1, some (.pk 1), [("x", .nodeV 2)], Process.baseSpec, "DummyProcess"⟩ =
      .ok ⟨[⟨0, .calculation, 0, some 1, true, false, []⟩,
        ⟨1, .calculation, 1, none, false, false,
          [("_process_label", .strV "DummyProcess")]⟩,
        ⟨2, .data, 2, some 2, true, false, []⟩],
       [⟨0, 2, .create, "CREATE"⟩, ⟨2, 1, .input, "x"⟩, ⟨0, 1, .call, "CALL"⟩],
       3, 3⟩ ∧
    (∃ n', (⟨[⟨0, .calculation, 0, some 1, true, false, []⟩,
        ⟨1, .calculation, 1, none, false, false,
          [("_process_label", .strV "DummyProcess")]⟩,
        ⟨2, .data, 2, some 2, true, false, []⟩],
       [⟨0, 2, .create, "CREATE"⟩, ⟨2, 1, .input, "x"⟩, ⟨0, 1, .call, "CALL"⟩],
       3, 3⟩ : Store).getNode 2 = some n' ∧ n'.is_stored = true ∧
      (⟨[⟨0, .calculation, 0, some 1, true, false, []⟩,
        ⟨1, .calculation, 1, none, false, false,
          [("_process_label", .strV "DummyProcess")]⟩,
        ⟨2, .data, 2, some 2, true, false, []⟩],
       [⟨0, 2, .create, "CREATE"⟩, ⟨2, 1, .input, "x"⟩, ⟨0, 1, .call, "CALL"⟩],
       3, 3⟩ : Store).createLinksTo 2 = [⟨0, 2, .create, "CREATE"⟩]) :=
  ⟨rfl,
   C2_unstored_input_create_and_store
     ⟨[⟨0, .calculation, 0, some 1, true, false, []⟩,
       ⟨1, .calculation, 1, none, false, false, []⟩,
       ⟨2, .data, 2, none, false, false, []⟩], [], 3, 2⟩
     ⟨[⟨0, .calculation, 0, some 1, true, false, []⟩,
       ⟨1, .calculation, 1, none, false, false,
         [("_process_label", .strV "DummyProcess")]⟩,
       ⟨2, .data, 2, some 2, true, false, []⟩],
      [⟨0, 2, .create, "CREATE"⟩, ⟨2, 1, .input, "x"⟩, ⟨0, 1, .call, "CALL"⟩],
      3, 3⟩
     ⟨1, some (.pk 1), [("x", .nodeV 2)], Process.baseSpec, "DummyProcess"⟩ 2
     ⟨2, .data, 2, none, false, false, []⟩ [("x", .nodeV 2)] (some 0)
     rfl rfl rfl (by decide) (by decide) (by decide) rfl rfl rfl rfl rfl⟩

/-! ### Claim C5: the CALL link from the parent -/

/-- C5 counterexample: the claim says the CALL link is added "using CALL_CALC
or CALL_WORK according to the parent/child kind".  On this concrete run with a
resolved parent, the link `_setup_db_record` adds has the single link type
`CALL` (`LinkType.call`, the only CALL member the source uses), and the callee
has no incoming `callCalc` or `callWork` link at all — the code never
discriminates by kind, refuting the claim as stated. -/
theorem C5_call_kind_counterexample :
    setup_db_record
      ⟨[⟨0, .calculation, 0, some 1, true, false, []⟩,
        ⟨1, .calculation, 1, none, false, false, []⟩], [], 2, 2⟩
      ⟨1, some (.pk 1), [], Process.baseSpec, "DummyProcess"⟩ =
      .ok ⟨[⟨0, .calculation, 0, some 1, true, false, []⟩,
        ⟨1, .calculation, 1, none, false, false,
          [("_process_label", .strV "DummyProcess")]⟩],
       [⟨0, 1, .call, "CALL"⟩], 2, 2⟩ ∧
    (⟨[⟨0, .calculation, 0, some 1, true, false, []⟩,
        ⟨1, .calculation, 1, none, false, false,
          [("_process_label", .strV "DummyProcess")]⟩],
       [⟨0, 1, .call, "CALL"⟩], 2, 2⟩ : Store).callLinksTo 1 =
      [⟨0, 1, .call, "CALL"⟩] ∧
    (⟨[⟨0, .calculation, 0, some 1, true, false, []⟩,
        ⟨1, .calculation, 1, none, false, false,
          [("_process_label", .strV "DummyProcess")]⟩],
       [⟨0, 1, .call, "CALL"⟩], 2, 2⟩ : Store).incomingOf 1 .callCalc = [] ∧
    (⟨[⟨0, .calculation, 0, some 1, true, false, []⟩,
        ⟨1, .calculation, 1, none, false, false,
          [("_process_label", .strV "DummyProcess")]⟩],
       [⟨0, 1, .call, "CALL"⟩], 2, 2⟩ : Store).incomingOf 1 .callWork = [] :=
  ⟨rfl, rfl, rfl, rfl⟩

/-- C5 (amended): for every process whose parent resolves from the stack pid
during CREATED, `_setup_db_record` adds one CALL link from the parent's node to
this process's node, with the single (not kind-differentiated) `CALL` link
type; the callee ends with exactly one incoming CALL edge and no kind-split
CALL_CALC/CALL_WORK edges. -/
theorem C5_call_link_amended
    (s s' : Store) (p : Process) (pc : Nat)
    (h : setup_db_record s p = .ok s')
    (hpar : get_parent_calc s p.parentPid = some pc)
    (hcall0 : s.callLinksTo p.calcId = [])
    (hcc0 : s.incomingOf p.calcId .callCalc = [])
    (hcw0 : s.incomingOf p.calcId .callWork = []) :
    s'.callLinksTo p.calcId = [⟨pc, p.calcId, .call, "CALL"⟩] ∧
    s'.incomingOf p.calcId .callCalc = [] ∧
    s'.incomingOf p.calcId .callWork = [] := by
  obtain ⟨calcNode, s1, toLink, s2, s3, hgC, hslC, hset, htl, hlink, hcall,
    hmeta⟩ := setup_db_record_ok h
  have hpar1 : get_parent_calc s1 p.parentPid = some pc := by
    rw [get_parent_calc_setAttr hset, hpar]
  obtain ⟨hl1, hni1, hnp1, hothers, nC, hnC, hnsC, hupdC⟩ := Store.setAttr_ok hset
  have hIncEq1 : ∀ lt, s1.incomingOf p.calcId lt = s.incomingOf p.calcId lt := by
    intro lt
    unfold Store.incomingOf
    rw [hl1]
  have hInc2 : ∀ lt, lt ≠ .create → lt ≠ .input →
      s2.incomingOf p.calcId lt = s.incomingOf p.calcId lt := by
    intro lt h1 h2
    rw [linkInputs_incomingOf_preserved toLink hlink p.calcId lt h1 h2,
      hIncEq1 lt]
  rw [hpar1] at hcall
  have hc3 : s2.addLink pc p.calcId .call "CALL" = .ok s3 := hcall
  obtain ⟨hn3, hl3, _, _⟩ := Store.addLink_ok hc3
  obtain ⟨hlM, hniM, hnpM, hcoreM⟩ := applyMetaInputs_ok hmeta
  have hIncM : ∀ lt, s'.incomingOf p.calcId lt = s3.incomingOf p.calcId lt := by
    intro lt
    unfold Store.incomingOf
    rw [hlM]
  refine ⟨?_, ?_, ?_⟩
  · rw [show s'.callLinksTo p.calcId = s3.incomingOf p.calcId .call from hIncM .call]
    rw [Store.incomingOf_append hl3 p.calcId .call]
    have h2c : s2.incomingOf p.calcId .call = [] := by
      rw [hInc2 .call (by simp) (by simp)]
      exact hcall0
    rw [h2c, List.nil_append]
    simp
  · rw [hIncM .callCalc, Store.incomingOf_append hl3 p.calcId .callCalc,
      hInc2 .callCalc (by simp) (by simp), hcc0, List.nil_append]
    simp
  · rw [hIncM .callWork, Store.incomingOf_append hl3 p.calcId .callWork,
      hInc2 .callWork (by simp) (by simp), hcw0, List.nil_append]
    simp

/-- C5 witness: the concrete parent/child run satisfies the amended theorem's
hypotheses by evaluation and yields exactly one incoming CALL link of the
single CALL type. -/
theorem C5_call_link_amended_witness :
    (⟨[⟨0, .calculation, 0, some 1, true, false, []⟩,
       ⟨1, .calculation, 1, none, false, false, []⟩], [], 2, 2⟩ : Store).callLinksTo 1 = [] ∧
    ((⟨[⟨0, .calculation, 0, some 1, true, false, []⟩,
        ⟨1, .calculation, 1, none, false, false,
          [("_process_label", .strV "DummyProcess")]⟩],
       [⟨0, 1, .call, "CALL"⟩], 2, 2⟩ : Store).callLinksTo 1 =
        [⟨0, 1, .call, "CALL"⟩] ∧
     (⟨[⟨0, .calculation, 0, some 1, true, false, []⟩,
        ⟨1, .calculation, 1, none, false, false,
          [("_process_label", .strV "DummyProcess")]⟩],
       [⟨0, 1, .call, "CALL"⟩], 2, 2⟩ : Store).incomingOf 1 .callCalc = [] ∧
     (⟨[⟨0, .calculation, 0, some 1, true, false, []⟩,
        ⟨1, .calculation, 1, none, false, false,
          [("_process_label", .strV "DummyProcess")]⟩],
       [⟨0, 1, .call, "CALL"⟩], 2, 2⟩ : Store).incomingOf 1 .callWork = []) :=
  ⟨rfl,
   C5_call_link_amended
     ⟨[⟨0, .calculation, 0, some 1, true, false, []⟩,
       ⟨1, .calculation, 1, none, false, false, []⟩], [], 2, 2⟩
     ⟨[⟨0, .calculation, 0, some 1, true, false, []⟩,
       ⟨1, .calculation, 1, none, false, false,
         [("_process_label", .strV "DummyProcess")]⟩],
      [⟨0, 1, .call, "CALL"⟩], 2, 2⟩
     ⟨1, some (.pk 1), [], Process.baseSpec, "DummyProcess"⟩ 0
     rfl rfl rfl rfl rfl⟩

theorem Store.getNode_createNode_self {s : Store} {k : NodeKind}
    (hfresh : ∀ nd ∈ s.nodes, nd.nid < s.nextId) :
    (s.createNode k).1.getNode s.nextId =
      some ⟨s.nextId, k, s.nextId, none, false, false, []⟩ := by
  unfold Store.createNode Store.getNode
  rw [List.find?_append]
  have hnone : s.nodes.find? (fun n => n.nid == s.nextId) = none := by
    rw [List.find?_eq_none]
    intro nd hnd
    simp only [beq_iff_eq]
    exact Nat.ne_of_lt (hfresh nd hnd)
  rw [hnone]
  simp

theorem setup_db_record_calc_core {s s' : Store} {p : Process}
    (h : setup_db_record s p = .ok s')
    (hx : p.calcId < s.nextId)
    {m : Node} (hm : s.getNode p.calcId = some m)
    (hkc : m.kind = .calculation) :
    ∃ m', s'.getNode p.calcId = some m' ∧ m'.coreEq m := by
  obtain ⟨calcNode, s1, toLink, s2, s3, hgC, hslC, hset, htl, hlink, hcall,
    hmeta⟩ := setup_db_record_ok h
  obtain ⟨m1, hm1, hcore1⟩ := Store.setAttr_core hset p.calcId m hm
  obtain ⟨hl1, hni1, hnp1, _, _, _, _, _⟩ := Store.setAttr_ok hset
  have hx1 : p.calcId < s1.nextId := by rw [hni1]; exact hx
  have hk1 : m1.kind = .calculation := by
    rw [hcore1.2.1, hkc]
  obtain ⟨hm2, _⟩ := linkInputs_preserve toLink hlink hx1 hm1
    (Or.inr (Or.inl hk1))
  have hm3 : s3.getNode p.calcId = some m1 := by
    cases hp : get_parent_calc s1 p.parentPid with
    | none =>
      rw [hp] at hcall
      have hs3 : s3 = s2 := hcall
      subst hs3
      exact hm2
    | some pc =>
      rw [hp] at hcall
      have hc3 : s2.addLink pc p.calcId .call "CALL" = .ok s3 := hcall
      rw [Store.getNode_eq_of_nodes_eq (Store.addLink_ok hc3).1 p.calcId]
      exact hm2
  obtain ⟨hlM, hniM, hnpM, hcoreM⟩ := applyMetaInputs_ok hmeta
  obtain ⟨m2, hmF, hcore2⟩ := hcoreM p.calcId m1 hm3
  exact ⟨m2, hmF, Node.coreEq_trans hcore2 hcore1⟩

theorem Store.store_all_eq {s : Store} {nid : Nat} {n : Node}
    (hg : s.getNode nid = some n) :
    s.store_all nid = (if n.is_stored then .error .modificationNotAllowed
      else .ok (s.storeNode nid)) := by
  unfold Store.store_all
  rw [hg]

theorem create_and_setup_db_record_eq (s : Store) (parentPid : Option Pid)
    (inputs : List (String × InVal)) (sp : PSpec) (clsName : String) :
    create_and_setup_db_record s parentPid inputs sp clsName =
      (match setup_db_record (s.createNode .calculation).1
          ⟨s.nextId, parentPid, inputs, sp, clsName⟩ with
       | .error e => Except.error e
       | .ok s1 =>
         match (if Process.store_provenance
             ⟨s.nextId, parentPid, inputs, sp, clsName⟩ then
             match s1.store_all s.nextId with
             | .error .modificationNotAllowed => Except.ok s1
             | .error e => Except.error e
             | .ok s2 => Except.ok s2
           else Except.ok s1) with
         | .error e => Except.error e
         | .ok s2 =>
           match s2.getNode s.nextId with
           | none => Except.error PErr.notExistent
           | some n =>
             match n.pk with
             | some k => Except.ok (s2, s.nextId, .pk k)
             | none => Except.ok (s2, s.nextId, .uuidPid n.uuid)) := rfl

/-! ### Claim C10: the pid is the pk when stored, the UUID otherwise -/

/-- C10: for every process construction, the pid returned by
`_create_and_setup_db_record` is the node's numeric primary key when the node
was stored (provenance storage enabled), and otherwise the node's UUID; in
particular a process created with `_store_provenance=False` gets a UUID pid
and its node stays unstored. -/
theorem C10_pid_pk_or_uuid
    (s s' : Store) (cid : Nat) (pid : Pid) (parentPid : Option Pid)
    (inputs : List (String × InVal)) (sp : PSpec) (clsName : String) (b : Bool)
    (hfresh : ∀ nd ∈ s.nodes, nd.nid < s.nextId)
    (hb : Process.store_provenance ⟨s.nextId, parentPid, inputs, sp, clsName⟩ = b)
    (h : create_and_setup_db_record s parentPid inputs sp clsName =
      .ok (s', cid, pid)) :
    cid = s.nextId ∧
    ∃ n', s'.getNode cid = some n' ∧
      (if b then n'.is_stored = true ∧ ∃ k, n'.pk = some k ∧ pid = .pk k
       else n'.is_stored = false ∧ n'.pk = none ∧ pid = .uuidPid n'.uuid ∧
         n'.uuid = s.nextId) := by
  rw [create_and_setup_db_record_eq] at h
  cases h1 : setup_db_record (s.createNode .calculation).1
      ⟨s.nextId, parentPid, inputs, sp, clsName⟩ with
  | error e => simp only [h1] at h; exact Except.noConfusion h
  | ok s1 =>
    simp only [h1] at h
    have hmfresh := Store.getNode_createNode_self (k := .calculation) hfresh
    obtain ⟨m1, hm1, hcore1⟩ := setup_db_record_calc_core h1
      (Nat.lt_succ_self s.nextId) hmfresh rfl
    have hst1 : m1.is_stored = false := hcore1.2.2.2.2.1
    have hpk1 : m1.pk = none := hcore1.2.2.2.1
    have huu1 : m1.uuid = s.nextId := hcore1.2.2.1
    rw [hb] at h
    cases b with
    | true =>
      rw [if_pos rfl] at h
      rw [Store.store_all_eq hm1, if_neg (by simp [hst1])] at h
      have hg2 := Store.getNode_storeNode_self hm1
      rw [hst1] at hg2
      simp only [Bool.false_eq_true, if_false] at hg2
      simp only [hg2] at h
      injection h with h2
      injection h2 with h2a h2b
      injection h2b with h2c h2d
      subst h2a
      subst h2c
      subst h2d
      refine ⟨rfl, _, hg2, ?_⟩
      rw [if_pos rfl]
      exact ⟨rfl, s1.nextPk, rfl, rfl⟩
    | false =>
      rw [if_neg (by simp)] at h
      simp only [hm1, hpk1] at h
      injection h with h2
      injection h2 with h2a h2b
      injection h2b with h2c h2d
      subst h2a
      subst h2c
      subst h2d
      refine ⟨rfl, m1, hm1, ?_⟩
      rw [if_neg (by simp)]
      exact ⟨hst1, hpk1, rfl, huu1⟩

/-- C10 witness: a construction with `_store_provenance=False` on an empty
store; the resulting pid is the UUID of the (unstored) fresh node, as the
test `test_pid_is_uuid` expects. -/
theorem C10_pid_pk_or_uuid_witness :
    create_and_setup_db_record ⟨[], [], 0, 0⟩ none
      [("_store_provenance", .rawV (.boolV false))] Process.baseSpec "P" =
      .ok (⟨[⟨0, .calculation, 0, none, false, false,
        [("_process_label", .strV "P")]⟩], [], 1, 0⟩, 0, .uuidPid 0) ∧
    (0 = 0 ∧ ∃ n', (⟨[⟨0, .calculation, 0, none, false, false,
        [("_process_label", .strV "P")]⟩], [], 1, 0⟩ : Store).getNode 0 =
          some n' ∧
      (if false then n'.is_stored = true ∧ ∃ k, n'.pk = some k ∧
          (Pid.uuidPid 0) = .pk k
       else n'.is_stored = false ∧ n'.pk = none ∧
         (Pid.uuidPid 0) = .uuidPid n'.uuid ∧ n'.uuid = 0)) :=
  ⟨rfl,
   C10_pid_pk_or_uuid ⟨[], [], 0, 0⟩
     ⟨[⟨0, .calculation, 0, none, false, false,
       [("_process_label", .strV "P")]⟩], [], 1, 0⟩ 0 (.uuidPid 0) none
     [("_store_provenance", .rawV (.boolV false))] Process.baseSpec "P" false
     (fun nd hnd => absurd hnd (List.not_mem_nil nd)) rfl rfl⟩

theorem Store.addLink_create_ok_empty {s s' : Store} {src tgt : Nat}
    {lbl : String} (h : s.addLink src tgt .create lbl = .ok s') :
    s.createLinksTo tgt = [] := by
  by_cases he : (s.incomingOf tgt .create).isEmpty = true
  · exact List.isEmpty_iff.mp he
  · exfalso
    cases hg : s.getNode tgt with
    | none => rw [Store.addLink_none hg] at h; exact Except.noConfusion h
    | some n =>
      rw [Store.addLink_eq hg] at h
      by_cases h1 : n.is_sealed = true
      · rw [if_pos h1] at h; exact Except.noConfusion h
      · rw [if_neg h1] at h
        rw [if_pos (by simp [he])] at h
        exact Except.noConfusion h

theorem Store.addLink_create_valueError {s : Store} {src tgt : Nat}
    {lbl : String} (h : s.addLink src tgt .create lbl = .error .valueError) :
    s.createLinksTo tgt ≠ [] := by
  intro hnil
  have hnil2 : s.incomingOf tgt .create = [] := hnil
  cases hg : s.getNode tgt with
  | none =>
    rw [Store.addLink_none hg] at h
    injection h with h1
    exact absurd h1 (by simp)
  | some n =>
    rw [Store.addLink_eq hg] at h
    by_cases h1 : n.is_sealed = true
    · rw [if_pos h1] at h
      injection h with h1'
      exact absurd h1' (by simp)
    · rw [if_neg h1] at h
      rw [if_neg (by simp [hnil2])] at h
      by_cases h3 : (s.links.any fun l => l.source == src && l.target == tgt &&
          decide (l.ltype = LinkType.create) && l.label == lbl) = true
      · rw [List.any_eq_true] at h3
        obtain ⟨l, hl, hp⟩ := h3
        simp only [Bool.and_eq_true, beq_iff_eq, decide_eq_true_eq] at hp
        have hmem : l ∈ s.incomingOf tgt .create := by
          unfold Store.incomingOf
          rw [List.mem_filter]
          exact ⟨hl, by simp [hp.1.1.2, hp.1.2]⟩
        rw [hnil2] at hmem
        exact List.not_mem_nil l hmem
      · rw [if_neg h3] at h
        exact Except.noConfusion h

/-! ### Claim C3: output emission claims CREATE, always adds RETURN -/

/-- C3: for every output emission of a `Data` value during RUNNING, the
emitting process attempts to claim CREATE ownership: when the value has no
creator yet, a CREATE link from the process is added; when a creator already
exists, the `ValueError` is silently swallowed and the CREATE links stay
unchanged.  In both cases the value ends stored and a RETURN link from the
process to the value is added in addition to any CREATE link. -/
theorem C3_output_emission_create_return
    (s s' : Store) (calcId v : Nat) (port : String) (n : Node)
    (h : Process.on_output_emitted s calcId (.dataVal v) port = .ok s')
    (hm : s.getNode v = some n) :
    (⟨calcId, v, .ret, port⟩ ∈ s'.links) ∧
    (∃ n', s'.getNode v = some n' ∧ n'.is_stored = true) ∧
    (s.createLinksTo v = [] →
      s'.createLinksTo v = [⟨calcId, v, .create, port⟩]) ∧
    (s.createLinksTo v ≠ [] → s'.createLinksTo v = s.createLinksTo v) := by
  unfold Process.on_output_emitted at h
  cases hc : s.addLink calcId v .create port with
  | ok s1 =>
    simp only [hc] at h
    obtain ⟨hn1, hl1, _, _⟩ := Store.addLink_ok hc
    have hcre : s.createLinksTo v = [] := Store.addLink_create_ok_empty hc
    have hg1 : s1.getNode v = some n := by
      rw [Store.getNode_eq_of_nodes_eq hn1 v, hm]
    have hg2 := Store.getNode_storeNode_self hg1
    obtain ⟨hn3, hl3, _, _⟩ := Store.addLink_ok h
    have hfin : s'.links = s.links ++
        [⟨calcId, v, .create, port⟩, ⟨calcId, v, .ret, port⟩] := by
      rw [hl3, Store.storeNode_links, hl1, List.append_assoc]
      rfl
    refine ⟨?_, ?_, ?_, ?_⟩
    · rw [hfin]
      exact List.mem_append.mpr (Or.inr (by simp))
    · refine ⟨(if n.is_stored then n
        else { n with pk := some s1.nextPk, is_stored := true }), ?_, ?_⟩
      · rw [Store.getNode_eq_of_nodes_eq hn3 v]
        exact hg2
      · by_cases hs : n.is_stored = true <;> simp [hs]
    · intro _
      unfold Store.createLinksTo
      rw [Store.incomingOf_append hfin v .create]
      have hcre2 : s.incomingOf v .create = [] := hcre
      rw [hcre2, List.nil_append]
      simp
    · intro hne
      exact absurd hcre hne
  | error e =>
    cases e with
    | valueError =>
      simp only [hc] at h
      have hcne : s.createLinksTo v ≠ [] := Store.addLink_create_valueError hc
      have hg2 := Store.getNode_storeNode_self hm
      obtain ⟨hn3, hl3, _, _⟩ := Store.addLink_ok h
      have hfin : s'.links = s.links ++ [⟨calcId, v, .ret, port⟩] := by
        rw [hl3, Store.storeNode_links]
      refine ⟨?_, ?_, ?_, ?_⟩
      · rw [hfin]
        exact List.mem_append.mpr (Or.inr (by simp))
      · refine ⟨(if n.is_stored then n
          else { n with pk := some s.nextPk, is_stored := true }), ?_, ?_⟩
        · rw [Store.getNode_eq_of_nodes_eq hn3 v]
          exact hg2
        · by_cases hs : n.is_stored = true <;> simp [hs]
      · intro hnil
        exact absurd hnil hcne
      · intro _
        unfold Store.createLinksTo
        rw [Store.incomingOf_append hfin v .create]
        simp
    | modificationNotAllowed => simp only [hc] at h; exact Except.noConfusion h
    | typeError => simp only [hc] at h; exact Except.noConfusion h
    | indexError => simp only [hc] at h; exact Except.noConfusion h
    | notExistent => simp only [hc] at h; exact Except.noConfusion h
    | assertionError => simp only [hc] at h; exact Except.noConfusion h

/-- C3 witness: emitting a fresh unstored data value: the process claims the
CREATE link, stores the value and adds the RETURN link. -/
theorem C3_output_emission_witness :
    Process.on_output_emitted
      ⟨[⟨0, .calculation, 0, some 1, true, false, []⟩,
        ⟨1, .data, 1, none, false, false, []⟩], [], 2, 2⟩ 0 (.dataVal 1) "out" =
      .ok ⟨[⟨0, .calculation, 0, some 1, true, false, []⟩,
        ⟨1, .data, 1, some 2, true, false, []⟩],
       [⟨0, 1, .create, "out"⟩, ⟨0, 1, .ret, "out"⟩], 2, 3⟩ ∧
    ((⟨0, 1, .ret, "out"⟩ : Link) ∈
      (⟨[⟨0, .calculation, 0, some 1, true, false, []⟩,
        ⟨1, .data, 1, some 2, true, false, []⟩],
       [⟨0, 1, .create, "out"⟩, ⟨0, 1, .ret, "out"⟩], 2, 3⟩ : Store).links) ∧
    (⟨[⟨0, .calculation, 0, some 1, true, false, []⟩,
        ⟨1, .data, 1, some 2, true, false, []⟩],
       [⟨0, 1, .create, "out"⟩, ⟨0, 1, .ret, "out"⟩], 2, 3⟩ : Store).createLinksTo 1 =
      [⟨0, 1, .create, "out"⟩] :=
  ⟨rfl,
   (C3_output_emission_create_return
     ⟨[⟨0, .calculation, 0, some 1, true, false, []⟩,
       ⟨1, .data, 1, none, false, false, []⟩], [], 2, 2⟩
     ⟨[⟨0, .calculation, 0, some 1, true, false, []⟩,
       ⟨1, .data, 1, some 2, true, false, []⟩],
      [⟨0, 1, .create, "out"⟩, ⟨0, 1, .ret, "out"⟩], 2, 3⟩ 0 1 "out"
     ⟨1, .data, 1, none, false, false, []⟩ rfl rfl).1,
   (C3_output_emission_create_return
     ⟨[⟨0, .calculation, 0, some 1, true, false, []⟩,
       ⟨1, .data, 1, none, false, false, []⟩], [], 2, 2⟩
     ⟨[⟨0, .calculation, 0, some 1, true, false, []⟩,
       ⟨1, .data, 1, some 2, true, false, []⟩],
      [⟨0, 1, .create, "out"⟩, ⟨0, 1, .ret, "out"⟩], 2, 3⟩ 0 1 "out"
     ⟨1, .data, 1, none, false, false, []⟩ rfl rfl).2.2.1 rfl⟩

/-! ### Claim C6: checkpoint save/load round trip -/

/-- C6: for every process with provenance stored (node stored, pid = pk),
serializing its checkpoint — which records the parent pid under
`SaveKeys.PARENT_PID` and the calc id (the pid) under `SaveKeys.CALC_ID` —
and deserializing it reproduces the instance exactly: same store, same
calculation node, same inputs, same parent and same pid; hence a subsequent
run of any deterministic execution body over the database-relevant inputs
reaches the same terminal outputs as an uninterrupted run. -/
theorem C6_checkpoint_roundtrip
    (s : Store) (p : Process) (pid : Pid) (k : Nat) (n : Node) (b : Bundle)
    (hn : s.getNode p.calcId = some n)
    (hstored : n.is_stored = true)
    (hpk : n.pk = some k)
    (hpid : pid = .pk k)
    (hload : s.load_node pid = .ok p.calcId)
    (hsave : Process.save_instance_state s p pid = .ok b) :
    b.calc_id = some pid ∧ b.parent_calc_pid = p.parentPid ∧
    Process.load_instance_state s b p.spec p.className = .ok (s, p, pid) ∧
    (∀ body : List (String × InVal) → List (String × Nat),
      (match Process.load_instance_state s b p.spec p.className with
       | .ok (_, p2, _) => runBody body p2
       | .error _ => []) = runBody body p) := by
  unfold Process.save_instance_state at hsave
  simp only [hn, hstored, Bool.not_true, Bool.and_false, Bool.false_eq_true,
    if_false] at hsave
  injection hsave with hb
  subst hb
  have hloadres : Process.load_instance_state s
      ⟨some pid, p.parentPid, false, p.inputs⟩ p.spec p.className =
      .ok (s, p, pid) := by
    unfold Process.load_instance_state
    simp only [hload, Bool.false_eq_true, if_false, hn, hpk]
    rw [hpid]
  refine ⟨rfl, rfl, hloadres, ?_⟩
  intro body
  rw [hloadres]

/-- C6 witness: a concrete stored process instance round-trips through
`save_instance_state`/`load_instance_state` to the identical store, instance
and pid. -/
theorem C6_checkpoint_roundtrip_witness :
    Process.save_instance_state
      ⟨[⟨0, .calculation, 0, some 1, true, false, []⟩,
        ⟨1, .data, 1, some 3, true, false, []⟩], [], 2, 4⟩
      ⟨0, none, [("x", .nodeV 1)], Process.baseSpec, "P"⟩ (.pk 1) =
      .ok ⟨some (.pk 1), none, false, [("x", .nodeV 1)]⟩ ∧
    Process.load_instance_state
      ⟨[⟨0, .calculation, 0, some 1, true, false, []⟩,
        ⟨1, .data, 1, some 3, true, false, []⟩], [], 2, 4⟩
      ⟨some (.pk 1), none, false, [("x", .nodeV 1)]⟩ Process.baseSpec "P" =
      .ok (⟨[⟨0, .calculation, 0, some 1, true, false, []⟩,
        ⟨1, .data, 1, some 3, true, false, []⟩], [], 2, 4⟩,
       ⟨0, none, [("x", .nodeV 1)], Process.baseSpec, "P"⟩, .pk 1) :=
  ⟨rfl,
   (C6_checkpoint_roundtrip
     ⟨[⟨0, .calculation, 0, some 1, true, false, []⟩,
       ⟨1, .data, 1, some 3, true, false, []⟩], [], 2, 4⟩
     ⟨0, none, [("x", .nodeV 1)], Process.baseSpec, "P"⟩ (.pk 1) 1
     ⟨0, .calculation, 0, some 1, true, false, []⟩
     ⟨some (.pk 1), none, false, [("x", .nodeV 1)]⟩
     rfl rfl rfl rfl rfl rfl).2.2.1⟩

theorem Store.getNode_mk_append {nodes extra : List Node} {links : List Link}
    {ni npk : Nat} {y : Nat} {n : Node}
    (h : nodes.find? (fun m => m.nid == y) = some n) :
    (⟨nodes ++ extra, links, ni, npk⟩ : Store).getNode y = some n := by
  unfold Store.getNode
  simp only [List.find?_append, h, Option.or_some]

theorem Store.getNode_mk_append_fresh {nodes : List Node} {extraN : Node}
    {links : List Link} {ni npk : Nat}
    (hfresh : ∀ nd ∈ nodes, nd.nid ≠ extraN.nid) :
    (⟨nodes ++ [extraN], links, ni, npk⟩ : Store).getNode extraN.nid =
      some extraN := by
  unfold Store.getNode
  rw [List.find?_append]
  have hnone : nodes.find? (fun m => m.nid == extraN.nid) = none := by
    rw [List.find?_eq_none]
    intro nd hnd
    simpa using hfresh nd hnd
  rw [hnone]
  simp

theorem copyNode_eq {s : Store} {oldNid : Nat} {n : Node}
    (hg : s.getNode oldNid = some n) :
    copyNode s oldNid =
      (⟨s.nodes ++ [⟨s.nextId, n.kind, s.nextId, none, false, false, n.attrs⟩],
        s.links ++ (s.links.filter (fun l =>
          l.target == oldNid && decide (l.ltype = .input))).map
          (fun l => ⟨l.source, s.nextId, l.ltype, l.label⟩),
        s.nextId + 1, s.nextPk⟩, s.nextId) := by
  unfold copyNode
  rw [hg]

/-! ### Claim C7: retry produces a fresh unsealed node -/

/-- C7: copy-resuming a checkpointed process via `retry` (the `COPY` flag plus
`load_instance_state`) produces a brand-new node: it is unsealed, freshly
stored, its identifier (id and UUID) differs from the original sealed node's,
equivalent incoming INPUT links (same sources and labels) are re-established
on the copy, and the original sealed node is left untouched. -/
theorem C7_retry_fresh_node
    (s : Store) (b : Bundle) (sp : PSpec) (clsName : String)
    (cidPid : Pid) (oldNid : Nat) (oldN : Node)
    (hb : b.calc_id = some cidPid)
    (hload : s.load_node cidPid = .ok oldNid)
    (hold : s.getNode oldNid = some oldN)
    (hsealed : oldN.is_sealed = true)
    (hfresh : ∀ nd ∈ s.nodes, nd.nid < s.nextId)
    (hufresh : ∀ nd ∈ s.nodes, nd.uuid < s.nextId)
    (hlfresh : ∀ l ∈ s.links, l.target < s.nextId) :
    ∃ s' newN,
      Process.retry s b sp clsName =
        .ok (s', ⟨s.nextId, b.parent_calc_pid, b.inputs, sp, clsName⟩,
          .pk s.nextPk) ∧
      s.nextId ≠ oldNid ∧
      s'.getNode s.nextId = some newN ∧
      newN.is_sealed = false ∧ newN.is_stored = true ∧
      newN.uuid = s.nextId ∧ newN.uuid ≠ oldN.uuid ∧
      (s'.inputLinksTo s.nextId).map (fun l => (l.source, l.label)) =
        (s.inputLinksTo oldNid).map (fun l => (l.source, l.label)) ∧
      s'.getNode oldNid = some oldN := by
  have holdlt : oldNid < s.nextId := by
    have := Store.getNode_nid hold
    rw [← this]
    exact hfresh oldN (by
      have hfind := hold
      unfold Store.getNode at hfind
      exact List.mem_of_find?_eq_some hfind)
  have hne : s.nextId ≠ oldNid := Nat.ne_of_gt holdlt
  -- the appended copy store
  have hcopy := copyNode_eq hold
  have hfreshNode : ∀ nd ∈ s.nodes, nd.nid ≠
      (⟨s.nextId, oldN.kind, s.nextId, none, false, false, oldN.attrs⟩ : Node).nid :=
    fun nd hnd => Nat.ne_of_lt (hfresh nd hnd)
  have hgNew : ((copyNode s oldNid).1).getNode s.nextId =
      some ⟨s.nextId, oldN.kind, s.nextId, none, false, false, oldN.attrs⟩ := by
    rw [hcopy]
    exact Store.getNode_mk_append_fresh hfreshNode
  have hgOld : ((copyNode s oldNid).1).getNode oldNid = some oldN := by
    rw [hcopy]
    have hfind : s.nodes.find? (fun m => m.nid == oldNid) = some oldN := hold
    exact Store.getNode_mk_append hfind
  -- storing the copy
  have hstore := Store.getNode_storeNode_self hgNew
  simp only [Bool.false_eq_true, if_false] at hstore
  have hstoreOld : ((copyNode s oldNid).1.storeNode s.nextId).getNode oldNid =
      some oldN := by
    rw [Store.getNode_storeNode_ne (Nat.ne_of_lt holdlt), hgOld]
  have hcopy2 : (copyNode s oldNid).2 = s.nextId := by rw [hcopy]
  refine ⟨(copyNode s oldNid).1.storeNode s.nextId,
    ⟨s.nextId, oldN.kind, s.nextId, some (copyNode s oldNid).1.nextPk, true,
      false, oldN.attrs⟩, ?_, hne, ?_, rfl, rfl, rfl, ?_, ?_, hstoreOld⟩
  · unfold Process.retry Process.load_instance_state
    simp only [hb, hload, if_pos, hcopy2]
    have hnpk : (copyNode s oldNid).1.nextPk = s.nextPk := by rw [hcopy]
    simp only [hstore, hnpk]
  · exact hstore
  · have hune : oldN.uuid < s.nextId := by
      refine hufresh oldN ?_
      unfold Store.getNode at hold
      exact List.mem_of_find?_eq_some hold
    exact fun he => absurd he.symm (Nat.ne_of_lt hune)
  · have hlinks : ((copyNode s oldNid).1.storeNode s.nextId).links =
        s.links ++ (s.links.filter (fun l =>
          l.target == oldNid && decide (l.ltype = .input))).map
          (fun l => ⟨l.source, s.nextId, l.ltype, l.label⟩) := by
      rw [Store.storeNode_links, hcopy]
    unfold Store.inputLinksTo Store.incomingOf
    rw [hlinks, List.filter_append]
    have hnil : s.links.filter (fun l =>
        l.target == s.nextId && decide (l.ltype = .input)) = [] := by
      rw [List.filter_eq_nil_iff]
      intro l hl
      simp only [Bool.and_eq_true, beq_iff_eq, not_and, decide_eq_true_eq]
      intro ht
      exact absurd ht (Nat.ne_of_lt (hlfresh l hl))
    rw [hnil, List.nil_append]
    have hkeep : ((s.links.filter (fun l =>
        l.target == oldNid && decide (l.ltype = .input))).map
        (fun l => (⟨l.source, s.nextId, l.ltype, l.label⟩ : Link))).filter
        (fun l => l.target == s.nextId && decide (l.ltype = .input)) =
        (s.links.filter (fun l =>
          l.target == oldNid && decide (l.ltype = .input))).map
        (fun l => (⟨l.source, s.nextId, l.ltype, l.label⟩ : Link)) := by
      rw [List.filter_eq_self]
      intro l hl
      rw [List.mem_map] at hl
      obtain ⟨l0, hl0, hmap⟩ := hl
      rw [List.mem_filter] at hl0
      subst hmap
      have hin := hl0.2
      simp only [Bool.and_eq_true, beq_iff_eq, decide_eq_true_eq] at hin
      simp [hin.2]
    rw [hkeep, List.map_map]
    rfl

/-- C7 witness: retrying a checkpointed process whose original node 0 is
sealed produces the fresh stored, unsealed node 2 with the input link from
node 1 re-established. -/
theorem C7_retry_fresh_node_witness :
    (⟨[⟨0, .calculation, 0, some 1, true, true, [("a", .natV 1)]⟩,
       ⟨1, .data, 1, some 3, true, false, []⟩],
      [⟨1, 0, .input, "x"⟩], 2, 4⟩ : Store).getNode 0 =
      some ⟨0, .calculation, 0, some 1, true, true, [("a", .natV 1)]⟩ ∧
    (∃ s' newN,
      Process.retry
        ⟨[⟨0, .calculation, 0, some 1, true, true, [("a", .natV 1)]⟩,
          ⟨1, .data, 1, some 3, true, false, []⟩],
         [⟨1, 0, .input, "x"⟩], 2, 4⟩
        ⟨some (.pk 1), none, false, []⟩ Process.baseSpec "P" =
        .ok (s', ⟨2, none, [], Process.baseSpec, "P"⟩, .pk 4) ∧
      (2 : Nat) ≠ 0 ∧
      s'.getNode 2 = some newN ∧
      newN.is_sealed = false ∧ newN.is_stored = true ∧
      newN.uuid = 2 ∧
      newN.uuid ≠ (⟨0, .calculation, 0, some 1, true, true,
        [("a", .natV 1)]⟩ : Node).uuid ∧
      (s'.inputLinksTo 2).map (fun l => (l.source, l.label)) =
        ((⟨[⟨0, .calculation, 0, some 1, true, true, [("a", .natV 1)]⟩,
          ⟨1, .data, 1, some 3, true, false, []⟩],
         [⟨1, 0, .input, "x"⟩], 2, 4⟩ : Store).inputLinksTo 0).map
          (fun l => (l.source, l.label)) ∧
      s'.getNode 0 =
        some ⟨0, .calculation, 0, some 1, true, true, [("a", .natV 1)]⟩) :=
  ⟨rfl,
   C7_retry_fresh_node
     ⟨[⟨0, .calculation, 0, some 1, true, true, [("a", .natV 1)]⟩,
       ⟨1, .data, 1, some 3, true, false, []⟩],
      [⟨1, 0, .input, "x"⟩], 2, 4⟩
     ⟨some (.pk 1), none, false, []⟩ Process.baseSpec "P" (.pk 1) 0
     ⟨0, .calculation, 0, some 1, true, true, [("a", .natV 1)]⟩
     rfl rfl rfl rfl (by decide) (by decide) (by decide)⟩
